import Mathlib

/-!
Verification of `examples/photon_noise_table.c` (aom photon noise table tool).

The C tool computes, in single-precision floating point, a 14-point film-grain
noise curve from image geometry, an ISO setting and a photometric transfer
function.  We embed the computation shallowly over `ℝ` (the standard
idealisation of the C `float` arithmetic: decimal literals denote the exact
rationals they spell, `powf`/`expf`/`logf`/`sqrtf` denote the exact real
functions).  Machine integers carry no overflow in the ranges the claims
quantify over, so they are embedded as `ℤ`/`ℕ`.
-/

namespace PhotonNoise

noncomputable section

open Real

/-- C `roundf`: round to nearest, ties away from zero (source line 341-342). -/
def roundf (x : ℝ) : ℝ := if 0 ≤ x then ((⌊x + 1/2⌋ : ℤ) : ℝ) else -((⌊-x + 1/2⌋ : ℤ) : ℝ)

/-- The same rounding, landing in `ℤ`. -/
def roundZ (x : ℝ) : ℤ := if 0 ≤ x then ⌊x + 1/2⌋ else -⌊-x + 1/2⌋

/-- C cast `(int)x`: truncation toward zero of an (integer-valued) float. -/
def int_of_float (x : ℝ) : ℤ := if 0 ≤ x then ⌊x⌋ else -⌊-x⌋

/-- Source line 197: `static float maxf(float a, float b) { return a > b ? a : b; }`. -/
def maxf (a b : ℝ) : ℝ := if b < a then a else b

/-- Source line 198: `static float minf(float a, float b) { return a < b ? a : b; }`. -/
def minf (a b : ℝ) : ℝ := if a < b then a else b

/-- Source lines 200-201. -/
def gamma22_to_linear (g : ℝ) : ℝ := g ^ (2.2 : ℝ)

def gamma22_from_linear (l : ℝ) : ℝ := l ^ (1 / 2.2 : ℝ)

/-- Source lines 202-203. -/
def gamma28_to_linear (g : ℝ) : ℝ := g ^ (2.8 : ℝ)

def gamma28_from_linear (l : ℝ) : ℝ := l ^ (1 / 2.8 : ℝ)

/-- Source lines 205-208. -/
def srgb_to_linear (srgb : ℝ) : ℝ :=
  if srgb ≤ 0.04045 then srgb / 12.92 else ((srgb + 0.055) / 1.055) ^ (2.4 : ℝ)

/-- Source lines 209-212. -/
def srgb_from_linear (linear : ℝ) : ℝ :=
  if linear ≤ 0.0031308 then 12.92 * linear else 1.055 * linear ^ (1 / 2.4 : ℝ) - 0.055

/-- Source lines 214-218: the PQ (SMPTE ST 2084) constants. -/
def kPqM1 : ℝ := 2610 / 16384

def kPqM2 : ℝ := 128 * 2523 / 4096

def kPqC1 : ℝ := 3424 / 4096

def kPqC2 : ℝ := 32 * 2413 / 4096

def kPqC3 : ℝ := 32 * 2392 / 4096

/-- Source lines 219-223. -/
def pq_to_linear (pq : ℝ) : ℝ :=
  (maxf 0 (pq ^ (1 / kPqM2) - kPqC1) / (kPqC2 - kPqC3 * pq ^ (1 / kPqM2))) ^ (1 / kPqM1)

/-- Source lines 224-228. -/
def pq_from_linear (linear : ℝ) : ℝ :=
  ((kPqC1 + kPqC2 * linear ^ kPqM1) / (1 + kPqC3 * linear ^ kPqM1)) ^ kPqM2

/-- Source lines 236-238: the HLG constants. -/
def kHlgA : ℝ := 0.17883277

def kHlgB : ℝ := 0.28466892

def kHlgC : ℝ := 0.55991073

/-- Source lines 239-244.  The source spells the cast on line 242 `(flout)`
(evidently intending `(float)`, cf. its own comment `EOTF = OOTF ∘ OETF⁻¹`);
a value cast is the identity in the real-valued model. -/
def hlg_to_linear (hlg : ℝ) : ℝ :=
  (if hlg ≤ 0.5 then hlg * hlg / 3 else (Real.exp ((hlg - kHlgC) / kHlgA) + kHlgB) / 12) ^ (1.2 : ℝ)

/-- Source lines 245-250. -/
def hlg_from_linear (linear : ℝ) : ℝ :=
  if linear ^ (1 / 1.2 : ℝ) ≤ 1 / 12 then Real.sqrt (3 * linear ^ (1 / 1.2 : ℝ))
  else kHlgA * Real.log (12 * linear ^ (1 / 1.2 : ℝ) - kHlgB) + kHlgC

/-- Source lines 115-123: `transfer_function_t`. -/
structure transfer_function_t where
  to_linear : ℝ → ℝ
  from_linear : ℝ → ℝ
  mid_tone : ℝ

/-- Source lines 254-257. -/
def kGamma22TransferFunction : transfer_function_t :=
  { to_linear := gamma22_to_linear, from_linear := gamma22_from_linear, mid_tone := 0.18 }

/-- Source lines 258-260. -/
def kGamma28TransferFunction : transfer_function_t :=
  { to_linear := gamma28_to_linear, from_linear := gamma28_from_linear, mid_tone := 0.18 }

/-- Source lines 261-263. -/
def kSRgbTransferFunction : transfer_function_t :=
  { to_linear := srgb_to_linear, from_linear := srgb_from_linear, mid_tone := 0.18 }

/-- Source lines 264-268. -/
def kPqTransferFunction : transfer_function_t :=
  { to_linear := pq_to_linear, from_linear := pq_from_linear, mid_tone := 26 / 10000 }

/-- Source lines 269-271. -/
def kHlgTransferFunction : transfer_function_t :=
  { to_linear := hlg_to_linear, from_linear := hlg_from_linear, mid_tone := 26 / 1000 }

/-- The closed catalog of the five curves (spec section 4.1). -/
def catalog : List transfer_function_t :=
  [kGamma22TransferFunction, kGamma28TransferFunction, kSRgbTransferFunction,
   kPqTransferFunction, kHlgTransferFunction]

/-- Modelled from the spec: numeric values of the `aom_transfer_characteristics_t`
CICP identifiers used by the `switch` on source lines 273-281.  The enum itself is
declared in `aom/aom_codec.h`, which is not under `src/`; the values are the
AV1/CICP codes the identifiers stand for. -/
def AOM_CICP_TC_BT_470_M : ℕ := 4

def AOM_CICP_TC_BT_470_B_G : ℕ := 5

def AOM_CICP_TC_SRGB : ℕ := 13

def AOM_CICP_TC_SMPTE_2084 : ℕ := 16

def AOM_CICP_TC_HLG : ℕ := 18

/-- Source lines 252-282: lookup over the closed set; the `default:` arm calls
`fatal(...)`, which aborts — modelled as `none`. -/
def find_transfer_function (tc : ℕ) : Option transfer_function_t :=
  if tc = AOM_CICP_TC_BT_470_M then some kGamma22TransferFunction
  else if tc = AOM_CICP_TC_BT_470_B_G then some kGamma28TransferFunction
  else if tc = AOM_CICP_TC_SRGB then some kSRgbTransferFunction
  else if tc = AOM_CICP_TC_SMPTE_2084 then some kPqTransferFunction
  else if tc = AOM_CICP_TC_HLG then some kHlgTransferFunction
  else none

/-- Source lines 128-136 (the `output_filename` plays no part in the computation). -/
structure photon_noise_args_t where
  width : ℤ
  height : ℤ
  iso_setting : ℤ
  transfer_function : transfer_function_t

/-- Modelled from the spec: the noise-synthesis descriptor (spec section 3,
`NoiseCurveDescriptor`).  The C struct `aom_film_grain_t` is declared in
`aom_dsp/grain_synthesis.h`, which is not under `src/`; the fields here are the
ones `generate_photon_noise` assigns (source lines 316-365) together with the
fields it leaves untouched (`ar_coeffs_y`, chroma scaling points, bit depth,
…).  Fixed-size C arrays are embedded as functions from the index. -/
structure aom_film_grain_t where
  apply_grain : ℤ
  update_parameters : ℤ
  scaling_points_y : ℕ → ℤ × ℤ
  num_y_points : ℤ
  scaling_points_cb : ℕ → ℤ × ℤ
  num_cb_points : ℤ
  scaling_points_cr : ℕ → ℤ × ℤ
  num_cr_points : ℤ
  scaling_shift : ℤ
  ar_coeff_lag : ℤ
  ar_coeffs_y : ℕ → ℤ
  ar_coeffs_cb : ℕ → ℤ
  ar_coeffs_cr : ℕ → ℤ
  ar_coeff_shift : ℤ
  cb_mult : ℤ
  cb_luma_mult : ℤ
  cb_offset : ℤ
  cr_mult : ℤ
  cr_luma_mult : ℤ
  cr_offset : ℤ
  overlap_flag : ℤ
  clip_to_restricted_range : ℤ
  bit_depth : ℤ
  chroma_scaling_from_luma : ℤ
  grain_scale_shift : ℤ
  random_seed : ℤ

/-- Source line 288. -/
def kPhotonsPerLxSPerUm2 : ℝ := 11260

/-- Source line 292. -/
def kEffectiveQuantumEfficiency : ℝ := 0.20

/-- Source line 296. -/
def kPhotoResponseNonUniformity : ℝ := 0.005

/-- Source line 297. -/
def kInputReferredReadNoise : ℝ := 1.5

/-- Source line 301: `10.f / iso_setting`. -/
def mid_tone_exposure (p : photon_noise_args_t) : ℝ := 10 / (p.iso_setting : ℝ)

/-- Source lines 304-305: `(36000 * 24000.f) / (width * height)`. -/
def pixel_area_um2 (p : photon_noise_args_t) : ℝ :=
  (36000 * 24000) / ((p.width : ℝ) * (p.height : ℝ))

/-- Source lines 307-309. -/
def mid_tone_electrons_per_pixel (p : photon_noise_args_t) : ℝ :=
  kEffectiveQuantumEfficiency * kPhotonsPerLxSPerUm2 * mid_tone_exposure p * pixel_area_um2 p

/-- Source lines 310-312. -/
def max_electrons_per_pixel (p : photon_noise_args_t) : ℝ :=
  mid_tone_electrons_per_pixel p / p.transfer_function.mid_tone

/-- Source line 318: `x = i / (num_y_points - 1.f)` with `num_y_points = 14`. -/
def sample_x (i : ℕ) : ℝ := (i : ℝ) / 13

/-- Source line 319. -/
def linear_at (p : photon_noise_args_t) (i : ℕ) : ℝ :=
  p.transfer_function.to_linear (sample_x i)

/-- Source line 320. -/
def electrons_per_pixel (p : photon_noise_args_t) (i : ℕ) : ℝ :=
  max_electrons_per_pixel p * linear_at p i

/-- Source lines 326-330. -/
def noise_in_electrons (p : photon_noise_args_t) (i : ℕ) : ℝ :=
  Real.sqrt (kInputReferredReadNoise * kInputReferredReadNoise + electrons_per_pixel p i +
    kPhotoResponseNonUniformity * kPhotoResponseNonUniformity *
      electrons_per_pixel p i * electrons_per_pixel p i)

/-- Source line 331. -/
def linear_noise (p : photon_noise_args_t) (i : ℕ) : ℝ :=
  noise_in_electrons p i / max_electrons_per_pixel p

/-- Source line 332. -/
def linear_range_start (p : photon_noise_args_t) (i : ℕ) : ℝ :=
  maxf 0 (linear_at p i - 2 * linear_noise p i)

/-- Source line 333. -/
def linear_range_end (p : photon_noise_args_t) (i : ℕ) : ℝ :=
  minf 1 (linear_at p i + 2 * linear_noise p i)

/-- Source lines 334-338. -/
def tf_slope (p : photon_noise_args_t) (i : ℕ) : ℝ :=
  (p.transfer_function.from_linear (linear_range_end p i) -
    p.transfer_function.from_linear (linear_range_start p i)) /
    (linear_range_end p i - linear_range_start p i)

/-- Source line 339. -/
def encoded_noise (p : photon_noise_args_t) (i : ℕ) : ℝ :=
  linear_noise p i * tf_slope p i

/-- Source lines 341, 344: `x = roundf(255 * x); ... = (int)x`. -/
def scaling_point_x (i : ℕ) : ℤ := int_of_float (roundf (255 * sample_x i))

/-- Source lines 342, 345:
`encoded_noise = minf(255.f, roundf(255 * 7.88f * encoded_noise)); ... = (int)encoded_noise`. -/
def scaling_point_noise (p : photon_noise_args_t) (i : ℕ) : ℤ :=
  int_of_float (minf 255 (roundf (255 * 7.88 * encoded_noise p i)))

/-- Source lines 284-366: the synthesizer, as a transformer of the descriptor
it is handed (it writes the 14 luma scaling points, `ar_coeffs_cb[0]`,
`ar_coeffs_cr[0]` and the listed scalar fields, and nothing else). -/
def generate_photon_noise (p : photon_noise_args_t) (film_grain : aom_film_grain_t) :
    aom_film_grain_t :=
  { film_grain with
    num_y_points := 14
    scaling_points_y := fun i =>
      if i < 14 then (scaling_point_x i, scaling_point_noise p i)
      else film_grain.scaling_points_y i
    apply_grain := 1
    update_parameters := 1
    num_cb_points := 0
    num_cr_points := 0
    scaling_shift := 8
    ar_coeff_lag := 0
    ar_coeffs_cb := fun n => if n = 0 then 0 else film_grain.ar_coeffs_cb n
    ar_coeffs_cr := fun n => if n = 0 then 0 else film_grain.ar_coeffs_cr n
    ar_coeff_shift := 6
    cb_mult := 0
    cb_luma_mult := 0
    cb_offset := 0
    cr_mult := 0
    cr_luma_mult := 0
    cr_offset := 0
    overlap_flag := 1
    random_seed := 7391
    chroma_scaling_from_luma := 0 }

/-- Source line 375: `memset(&film_grain, 0, sizeof(film_grain))` in `main`. -/
def zeroed_film_grain : aom_film_grain_t :=
  { apply_grain := 0, update_parameters := 0, scaling_points_y := fun _ => (0, 0)
    num_y_points := 0, scaling_points_cb := fun _ => (0, 0), num_cb_points := 0
    scaling_points_cr := fun _ => (0, 0), num_cr_points := 0, scaling_shift := 0
    ar_coeff_lag := 0, ar_coeffs_y := fun _ => 0, ar_coeffs_cb := fun _ => 0
    ar_coeffs_cr := fun _ => 0, ar_coeff_shift := 0, cb_mult := 0, cb_luma_mult := 0
    cb_offset := 0, cr_mult := 0, cr_luma_mult := 0, cr_offset := 0, overlap_flag := 0
    clip_to_restricted_range := 0, bit_depth := 0, chroma_scaling_from_luma := 0
    grain_scale_shift := 0, random_seed := 0 }

/-! ### Basic facts about the float helpers -/

lemma maxf_eq_max (a b : ℝ) : maxf a b = max a b := by
  unfold maxf
  rcases lt_trichotomy a b with h | h | h
  · rw [if_neg (by linarith), max_eq_right h.le]
  · subst h; simp
  · rw [if_pos h, max_eq_left h.le]

lemma minf_eq_min (a b : ℝ) : minf a b = min a b := by
  unfold minf
  rcases lt_trichotomy a b with h | h | h
  · rw [if_pos h, min_eq_left h.le]
  · subst h; simp
  · rw [if_neg (by linarith), min_eq_right h.le]

lemma roundf_eq_roundZ (x : ℝ) : roundf x = ((roundZ x : ℤ) : ℝ) := by
  unfold roundf roundZ
  split <;> simp

lemma int_of_float_intCast (z : ℤ) : int_of_float ((z : ℤ) : ℝ) = z := by
  unfold int_of_float
  split
  · exact Int.floor_intCast z
  · rw [show -((z : ℤ) : ℝ) = (((-z : ℤ) : ℤ) : ℝ) by push_cast; ring, Int.floor_intCast]
    ring

lemma floor_eq_of {z : ℤ} {x : ℝ} (h1 : (z : ℝ) ≤ x) (h2 : x < z + 1) : ⌊x⌋ = z :=
  Int.floor_eq_iff.mpr ⟨h1, by exact_mod_cast h2⟩

lemma roundZ_eq_of {z : ℤ} {x : ℝ} (h0 : 0 ≤ x) (h1 : (z : ℝ) ≤ x + 1 / 2)
    (h2 : x + 1 / 2 < z + 1) : roundZ x = z := by
  unfold roundZ
  rw [if_pos h0]
  exact floor_eq_of h1 h2

lemma roundZ_nonneg {x : ℝ} (h : 0 ≤ x) : 0 ≤ roundZ x := by
  unfold roundZ
  rw [if_pos h]
  exact Int.le_floor.mpr (by push_cast; linarith)

/-- For `v > -1/2` the C rounding is nonnegative (it gives `0` on `(-1/2, 0)`). -/
lemma roundZ_nonneg_of_half {x : ℝ} (h : -(1 / 2) < x) : 0 ≤ roundZ x := by
  unfold roundZ
  split
  · exact Int.le_floor.mpr (by push_cast; linarith)
  · rename_i hx
    push_neg at hx
    have h1 : ⌊-x + 1 / 2⌋ = 0 := floor_eq_of (by push_cast; linarith) (by push_cast; linarith)
    rw [h1]
    norm_num

lemma scaling_point_x_eq (i : ℕ) : scaling_point_x i = roundZ (255 * sample_x i) := by
  unfold scaling_point_x
  rw [roundf_eq_roundZ, int_of_float_intCast]

lemma scaling_point_noise_eq (p : photon_noise_args_t) (i : ℕ) :
    scaling_point_noise p i = min 255 (roundZ (255 * 7.88 * encoded_noise p i)) := by
  unfold scaling_point_noise
  rw [roundf_eq_roundZ]
  have key : ∀ r : ℤ, minf 255 ((r : ℤ) : ℝ) = ((min 255 r : ℤ) : ℝ) := by
    intro r
    unfold minf
    rcases lt_or_le (255 : ℤ) r with h | h
    · rw [if_pos (by exact_mod_cast h), min_eq_left h.le]
      norm_num
    · rw [if_neg (not_lt.mpr (by exact_mod_cast h)), min_eq_right h]
  rw [key, int_of_float_intCast]

lemma scaling_point_x_val {i : ℕ} {z : ℤ} (h1 : (z : ℝ) ≤ 255 * ((i : ℝ) / 13) + 1 / 2)
    (h2 : 255 * ((i : ℝ) / 13) + 1 / 2 < (z : ℝ) + 1) : scaling_point_x i = z := by
  rw [scaling_point_x_eq]
  unfold sample_x
  exact roundZ_eq_of (by positivity) h1 (by linarith)

/-- The 14 encoded x-coordinates of the scaling points. -/
def xCoordTable : List ℤ := [0, 20, 39, 59, 78, 98, 118, 137, 157, 177, 196, 216, 235, 255]

lemma scaling_point_x_table : ∀ i, i < 14 → scaling_point_x i = xCoordTable.getD i 0 := by
  intro i hi
  interval_cases i <;>
    exact scaling_point_x_val (by norm_num [xCoordTable]) (by norm_num [xCoordTable])


/-! ### Catalog facts -/

lemma mid_tone_pos {tf : transfer_function_t} (htf : tf ∈ catalog) : 0 < tf.mid_tone := by
  simp only [catalog, List.mem_cons, List.mem_singleton, List.not_mem_nil, or_false] at htf
  rcases htf with h | h | h | h | h <;> subst h <;>
    norm_num [kGamma22TransferFunction, kGamma28TransferFunction, kSRgbTransferFunction,
      kPqTransferFunction, kHlgTransferFunction]

/-- A convenient concrete invocation (the spec's own example scenario). -/
def exampleArgs : photon_noise_args_t :=
  { width := 3840, height := 2160, iso_setting := 25600,
    transfer_function := kSRgbTransferFunction }

/-- C2: the synthesizer always emits exactly 14 scaling points; their encoded
x-coordinates are `round(255 * i/13)`, strictly increasing, inside `[0, 255]`,
the first being `0` and the last `255`. -/
theorem C2_scaling_point_grid (p : photon_noise_args_t) (fg : aom_film_grain_t) :
    (generate_photon_noise p fg).num_y_points = 14 ∧
    (∀ i, i < 14 → ((generate_photon_noise p fg).scaling_points_y i).1 = scaling_point_x i) ∧
    (∀ i, i < 14 → scaling_point_x i = roundZ (255 * ((i : ℝ) / 13))) ∧
    (∀ i j, i < j → j < 14 → scaling_point_x i < scaling_point_x j) ∧
    (∀ i, i < 14 → 0 ≤ scaling_point_x i ∧ scaling_point_x i ≤ 255) ∧
    scaling_point_x 0 = 0 ∧ scaling_point_x 13 = 255 := by
  have htab := scaling_point_x_table
  refine ⟨rfl, ?_, ?_, ?_, ?_, ?_, ?_⟩
  · intro i hi
    simp [generate_photon_noise, hi]
  · intro i _
    rw [scaling_point_x_eq]
    rfl
  · intro i j hij hj
    have hi : i < 14 := hij.trans hj
    rw [htab i hi, htab j hj]
    have H : ∀ a, a < 14 → ∀ b, b < 14 → a < b →
        xCoordTable.getD a 0 < xCoordTable.getD b 0 := by decide
    exact H i hi j hj hij
  · intro i hi
    rw [htab i hi]
    have H : ∀ a, a < 14 → 0 ≤ xCoordTable.getD a 0 ∧ xCoordTable.getD a 0 ≤ 255 := by decide
    exact H i hi
  · rw [htab 0 (by norm_num)]; decide
  · rw [htab 13 (by norm_num)]; decide

theorem C2_scaling_point_grid_witness : scaling_point_x 0 = 0 ∧ scaling_point_x 13 = 255 := by
  have h := C2_scaling_point_grid exampleArgs zeroed_film_grain
  exact ⟨h.2.2.2.2.2.1, h.2.2.2.2.2.2⟩

/-- C5: with width, height and transfer function fixed, a strictly larger ISO
setting gives a strictly smaller full-scale electron count. -/
theorem C5_iso_strictly_decreases_electrons (w h iso₁ iso₂ : ℤ) (tf : transfer_function_t)
    (htf : tf ∈ catalog) (hw : 0 < w) (hh : 0 < h) (h1 : 0 < iso₁) (h12 : iso₁ < iso₂) :
    max_electrons_per_pixel ⟨w, h, iso₂, tf⟩ < max_electrons_per_pixel ⟨w, h, iso₁, tf⟩ := by
  have hmid : 0 < tf.mid_tone := mid_tone_pos htf
  have hw' : (0 : ℝ) < (w : ℝ) := by exact_mod_cast hw
  have hh' : (0 : ℝ) < (h : ℝ) := by exact_mod_cast hh
  have h1' : (0 : ℝ) < (iso₁ : ℝ) := by exact_mod_cast h1
  have h2' : (iso₁ : ℝ) < (iso₂ : ℝ) := by exact_mod_cast h12
  have harea : (0 : ℝ) < (36000 * 24000) / ((w : ℝ) * (h : ℝ)) := by positivity
  have hexp : (10 : ℝ) / (iso₂ : ℝ) < 10 / (iso₁ : ℝ) := by
    apply div_lt_div_of_pos_left (by norm_num) h1' h2'
  unfold max_electrons_per_pixel mid_tone_electrons_per_pixel mid_tone_exposure pixel_area_um2
    kEffectiveQuantumEfficiency kPhotonsPerLxSPerUm2
  rw [div_lt_div_iff_of_pos_right hmid]
  have hc : (0 : ℝ) < 0.20 * 11260 := by norm_num
  calc 0.20 * 11260 * (10 / (iso₂ : ℝ)) * ((36000 * 24000) / ((w : ℝ) * (h : ℝ)))
      < 0.20 * 11260 * (10 / (iso₁ : ℝ)) * ((36000 * 24000) / ((w : ℝ) * (h : ℝ))) := by
        apply mul_lt_mul_of_pos_right _ harea
        exact mul_lt_mul_of_pos_left hexp hc
    _ = 0.20 * 11260 * (10 / (iso₁ : ℝ)) * ((36000 * 24000) / ((w : ℝ) * (h : ℝ))) := rfl

theorem C5_iso_strictly_decreases_electrons_witness :
    max_electrons_per_pixel ⟨3840, 2160, 51200, kSRgbTransferFunction⟩ <
      max_electrons_per_pixel ⟨3840, 2160, 25600, kSRgbTransferFunction⟩ :=
  C5_iso_strictly_decreases_electrons 3840 2160 25600 51200 kSRgbTransferFunction
    (by simp [catalog]) (by norm_num) (by norm_num) (by norm_num) (by norm_num)

/-- C7: transfer-function lookup is total over the closed five-member set and
maps every other identifier to the fatal arm (`none`), never a default curve. -/
theorem C7_lookup_total_over_closed_set :
    find_transfer_function AOM_CICP_TC_BT_470_M = some kGamma22TransferFunction ∧
    find_transfer_function AOM_CICP_TC_BT_470_B_G = some kGamma28TransferFunction ∧
    find_transfer_function AOM_CICP_TC_SRGB = some kSRgbTransferFunction ∧
    find_transfer_function AOM_CICP_TC_SMPTE_2084 = some kPqTransferFunction ∧
    find_transfer_function AOM_CICP_TC_HLG = some kHlgTransferFunction ∧
    (∀ tc : ℕ, tc ∉ [AOM_CICP_TC_BT_470_M, AOM_CICP_TC_BT_470_B_G, AOM_CICP_TC_SRGB,
      AOM_CICP_TC_SMPTE_2084, AOM_CICP_TC_HLG] → find_transfer_function tc = none) := by
  refine ⟨rfl, rfl, rfl, rfl, rfl, ?_⟩
  intro tc htc
  simp only [List.mem_cons, List.mem_singleton, List.not_mem_nil, or_false, not_or] at htc
  obtain ⟨n1, n2, n3, n4, n5⟩ := htc
  simp [find_transfer_function, n1, n2, n3, n4, n5]

theorem C7_lookup_total_over_closed_set_witness : find_transfer_function 0 = none :=
  C7_lookup_total_over_closed_set.2.2.2.2.2 0 (by decide)

/-- C8: the synthesizer is deterministic (a pure function of its inputs) and the
fixed auxiliary fields always take the fixed values: seed 7391, no chroma points,
no AR lag, overlap on, chroma-from-luma off, apply/update set. -/
theorem C8_deterministic_fixed_fields (p : photon_noise_args_t) (fg : aom_film_grain_t) :
    generate_photon_noise p fg = generate_photon_noise p fg ∧
    (generate_photon_noise p fg).random_seed = 7391 ∧
    (generate_photon_noise p fg).num_cb_points = 0 ∧
    (generate_photon_noise p fg).num_cr_points = 0 ∧
    (generate_photon_noise p fg).ar_coeff_lag = 0 ∧
    (generate_photon_noise p fg).overlap_flag = 1 ∧
    (generate_photon_noise p fg).chroma_scaling_from_luma = 0 ∧
    (generate_photon_noise p fg).apply_grain = 1 ∧
    (generate_photon_noise p fg).update_parameters = 1 :=
  ⟨rfl, rfl, rfl, rfl, rfl, rfl, rfl, rfl, rfl⟩

/-- C10: the synthesizer writes only the listed fields; in particular the luma
AR coefficients are left untouched, so they are zero in the final output only
because `main` zero-initializes the descriptor first. -/
theorem C10_untouched_fields (p : photon_noise_args_t) (fg : aom_film_grain_t) :
    (generate_photon_noise p fg).ar_coeffs_y = fg.ar_coeffs_y ∧
    (generate_photon_noise p fg).scaling_points_cb = fg.scaling_points_cb ∧
    (generate_photon_noise p fg).scaling_points_cr = fg.scaling_points_cr ∧
    (generate_photon_noise p fg).clip_to_restricted_range = fg.clip_to_restricted_range ∧
    (generate_photon_noise p fg).bit_depth = fg.bit_depth ∧
    (generate_photon_noise p fg).grain_scale_shift = fg.grain_scale_shift ∧
    (∀ n, n ≠ 0 → (generate_photon_noise p fg).ar_coeffs_cb n = fg.ar_coeffs_cb n) ∧
    (∀ n, n ≠ 0 → (generate_photon_noise p fg).ar_coeffs_cr n = fg.ar_coeffs_cr n) ∧
    (∀ n, 14 ≤ n → (generate_photon_noise p fg).scaling_points_y n = fg.scaling_points_y n) ∧
    (generate_photon_noise p zeroed_film_grain).ar_coeffs_y = fun _ => (0 : ℤ) := by
  refine ⟨rfl, rfl, rfl, rfl, rfl, rfl, ?_, ?_, ?_, rfl⟩
  · intro n hn
    simp [generate_photon_noise, hn]
  · intro n hn
    simp [generate_photon_noise, hn]
  · intro n hn
    simp [generate_photon_noise, Nat.not_lt.mpr hn]

theorem C10_untouched_fields_witness :
    (generate_photon_noise exampleArgs zeroed_film_grain).ar_coeffs_cb 1 =
      zeroed_film_grain.ar_coeffs_cb 1 :=
  (C10_untouched_fields exampleArgs zeroed_film_grain).2.2.2.2.2.2.1 1 (by decide)

/-! ### Rational-power reduction helpers -/

lemma rpow_nat_div_pow {x : ℝ} (hx : 0 ≤ x) (num den : ℕ) (hden : den ≠ 0) :
    (x ^ (((num : ℕ) : ℝ) / ((den : ℕ) : ℝ))) ^ den = x ^ num := by
  rw [← Real.rpow_natCast (x ^ (((num : ℕ) : ℝ) / ((den : ℕ) : ℝ))) den, ← Real.rpow_mul hx,
    div_mul_cancel₀ _ (by exact_mod_cast hden : ((den : ℕ) : ℝ) ≠ 0), Real.rpow_natCast]

lemma rpow_nat_div_le_iff {x q : ℝ} (hx : 0 ≤ x) (hq : 0 ≤ q) (num den : ℕ) (hden : den ≠ 0) :
    x ^ (((num : ℕ) : ℝ) / ((den : ℕ) : ℝ)) ≤ q ↔ x ^ num ≤ q ^ den := by
  rw [← pow_le_pow_iff_left₀ (Real.rpow_nonneg hx _) hq hden, rpow_nat_div_pow hx num den hden]

lemma le_rpow_nat_div_iff {x q : ℝ} (hx : 0 ≤ x) (hq : 0 ≤ q) (num den : ℕ) (hden : den ≠ 0) :
    q ≤ x ^ (((num : ℕ) : ℝ) / ((den : ℕ) : ℝ)) ↔ q ^ den ≤ x ^ num := by
  rw [← pow_le_pow_iff_left₀ hq (Real.rpow_nonneg hx _) hden, rpow_nat_div_pow hx num den hden]

/-! ### Positivity of the intermediate quantities -/

lemma max_electrons_pos {p : photon_noise_args_t} (hw : 0 < p.width) (hh : 0 < p.height)
    (hiso : 0 < p.iso_setting) (htf : p.transfer_function ∈ catalog) :
    0 < max_electrons_per_pixel p := by
  have hw' : (0 : ℝ) < (p.width : ℝ) := by exact_mod_cast hw
  have hh' : (0 : ℝ) < (p.height : ℝ) := by exact_mod_cast hh
  have hiso' : (0 : ℝ) < (p.iso_setting : ℝ) := by exact_mod_cast hiso
  have hmid := mid_tone_pos htf
  unfold max_electrons_per_pixel mid_tone_electrons_per_pixel mid_tone_exposure pixel_area_um2
    kEffectiveQuantumEfficiency kPhotonsPerLxSPerUm2
  positivity

lemma sample_x_nonneg (i : ℕ) : 0 ≤ sample_x i := by
  unfold sample_x
  positivity

lemma sample_x_le_one {i : ℕ} (hi : i < 14) : sample_x i ≤ 1 := by
  unfold sample_x
  rw [div_le_one (by norm_num)]
  exact_mod_cast Nat.lt_succ_iff.mp (by omega : i < 14)

lemma noise_in_electrons_pos {p : photon_noise_args_t} {i : ℕ}
    (he : 0 ≤ electrons_per_pixel p i) : 0 < noise_in_electrons p i := by
  unfold noise_in_electrons kInputReferredReadNoise kPhotoResponseNonUniformity
  apply Real.sqrt_pos.mpr
  nlinarith

/-- Photon-response non-uniformity alone already gives
`noise_in_electrons ≥ 0.005 * electrons`. -/
lemma noise_in_electrons_ge_prnu {p : photon_noise_args_t} {i : ℕ}
    (he : 0 ≤ electrons_per_pixel p i) :
    0.005 * electrons_per_pixel p i ≤ noise_in_electrons p i := by
  unfold noise_in_electrons kInputReferredReadNoise kPhotoResponseNonUniformity
  rw [show (0.005 : ℝ) * electrons_per_pixel p i =
      Real.sqrt ((0.005 * electrons_per_pixel p i) ^ 2) by
    rw [Real.sqrt_sq (by positivity)]]
  apply Real.sqrt_le_sqrt
  nlinarith

lemma linear_noise_pos {p : photon_noise_args_t} {i : ℕ}
    (hmax : 0 < max_electrons_per_pixel p) (he : 0 ≤ electrons_per_pixel p i) :
    0 < linear_noise p i := by
  unfold linear_noise
  exact div_pos (noise_in_electrons_pos he) hmax

/-- `linear_noise ≥ 0.005 * linear`: the relative noise floor from
pixel non-uniformity. -/
lemma linear_noise_ge {p : photon_noise_args_t} {i : ℕ}
    (hmax : 0 < max_electrons_per_pixel p) (hl : 0 ≤ linear_at p i) :
    0.005 * linear_at p i ≤ linear_noise p i := by
  have he : 0 ≤ electrons_per_pixel p i := by
    unfold electrons_per_pixel
    positivity
  have h1 := noise_in_electrons_ge_prnu (p := p) (i := i) he
  unfold linear_noise
  rw [le_div_iff₀ hmax]
  unfold electrons_per_pixel at h1
  calc 0.005 * linear_at p i * max_electrons_per_pixel p
      = 0.005 * (max_electrons_per_pixel p * linear_at p i) := by ring
    _ ≤ noise_in_electrons p i := h1

/-- The interval `[linear_range_start, linear_range_end]` is nondegenerate as soon
as the sampled linear value lies in `[0, 1]` and the relative noise is positive. -/
lemma range_start_lt_end {p : photon_noise_args_t} {i : ℕ}
    (hl0 : 0 ≤ linear_at p i) (hl1 : linear_at p i ≤ 1)
    (hln : 0 < linear_noise p i) :
    linear_range_start p i < linear_range_end p i := by
  unfold linear_range_start linear_range_end
  rw [maxf_eq_max, minf_eq_min]
  apply max_lt
  · exact lt_min (by norm_num) (by linarith)
  · exact lt_min (by linarith) (by linarith)

/-- The sRGB forward map sends `[0, 1]` into `[0, 1]`. -/
lemma srgb_to_maps01 : ∀ x : ℝ, 0 ≤ x → x ≤ 1 →
    0 ≤ srgb_to_linear x ∧ srgb_to_linear x ≤ 1 := by
  intro x hx hx1
  unfold srgb_to_linear
  split
  · constructor
    · positivity
    · rename_i h
      rw [div_le_one (by norm_num)]
      linarith
  · constructor
    · exact Real.rpow_nonneg (by positivity) _
    · exact Real.rpow_le_one (by positivity) (by rw [div_le_one (by norm_num)]; linarith)
        (by norm_num)

/-- C9: for positive width, height and ISO and a catalog transfer function whose
forward map sends `[0,1]` into `[0,1]`, the finite-difference denominator
`linear_range_end - linear_range_start` is strictly positive, so the slope
computation never divides by zero. -/
theorem C9_slope_denominator_positive (p : photon_noise_args_t)
    (hw : 0 < p.width) (hh : 0 < p.height) (hiso : 0 < p.iso_setting)
    (htf : p.transfer_function ∈ catalog)
    (hmap : ∀ x : ℝ, 0 ≤ x → x ≤ 1 →
      0 ≤ p.transfer_function.to_linear x ∧ p.transfer_function.to_linear x ≤ 1)
    (i : ℕ) (hi : i < 14) :
    0 < linear_range_end p i - linear_range_start p i := by
  have hmax := max_electrons_pos hw hh hiso htf
  have hl := hmap (sample_x i) (sample_x_nonneg i) (sample_x_le_one hi)
  have hl0 : 0 ≤ linear_at p i := hl.1
  have hl1 : linear_at p i ≤ 1 := hl.2
  have he : 0 ≤ electrons_per_pixel p i := by
    unfold electrons_per_pixel
    positivity
  have hln := linear_noise_pos hmax he
  linarith [range_start_lt_end hl0 hl1 hln]

theorem C9_slope_denominator_positive_witness :
    0 < linear_range_end exampleArgs 0 - linear_range_start exampleArgs 0 :=
  C9_slope_denominator_positive exampleArgs (by norm_num [exampleArgs])
    (by norm_num [exampleArgs]) (by norm_num [exampleArgs])
    (by simp [exampleArgs, catalog])
    (fun x hx hx1 => srgb_to_maps01 x hx hx1) 0 (by norm_num)

/-! ### C6: the HLG transfer function against its canonical form

The claim describes the intended semantics of `hlg_to_linear`.  The source
itself, however, spells the cast on line 242 `(flout) exp(...)` — `flout` is an
undeclared identifier, so the translation unit is ill-formed C and does not
compile; `(float)` is evidently intended (the code's own comment on line 240
says `EOTF = OOTF ∘ OETF⁻¹`, and the sibling functions all use such casts).
The definitions below spell out the canonical decomposition named by the claim;
`hlg_to_linear` above models the source with the cast read as intended (a value
cast is the identity on `ℝ`). -/

/-- Canonical HLG OETF inverse (constants a, b, c as published). -/
def hlg_oetf_inv (x : ℝ) : ℝ :=
  if x ≤ 0.5 then x ^ 2 / 3 else (Real.exp ((x - 0.55991073) / 0.17883277) + 0.28466892) / 12

/-- Canonical HLG OETF. -/
def hlg_oetf (l : ℝ) : ℝ :=
  if l ≤ 1 / 12 then Real.sqrt (3 * l)
  else 0.17883277 * Real.log (12 * l - 0.28466892) + 0.55991073

/-- HLG OOTF: the display system gamma of 1.2. -/
def hlg_ootf (l : ℝ) : ℝ := l ^ (1.2 : ℝ)

/-- HLG OOTF inverse. -/
def hlg_ootf_inv (l : ℝ) : ℝ := l ^ (1 / 1.2 : ℝ)

/-- C6: the (intended) HLG forward map is the EOTF `OOTF ∘ OETF⁻¹` — i.e.
`(hlg²/3)^1.2` below 0.5 and `(((exp((hlg-0.55991073)/0.17883277))+0.28466892)/12)^1.2`
above — its inverse is `OETF ∘ OOTF⁻¹`, and its `mid_tone` is `26/1000`.
(The source text itself does not compile: line 242 writes `(flout)` for the
intended `(float)` cast, so this records the intent the claim and the code's
own comment describe.) -/
theorem C6_hlg_eotf_canonical :
    (∀ x : ℝ, hlg_to_linear x = hlg_ootf (hlg_oetf_inv x)) ∧
    (∀ l : ℝ, hlg_from_linear l = hlg_oetf (hlg_ootf_inv l)) ∧
    kHlgTransferFunction.mid_tone = 26 / 1000 ∧
    (∀ x : ℝ, x ≤ 0.5 → hlg_to_linear x = (x ^ 2 / 3) ^ (1.2 : ℝ)) ∧
    hlg_to_linear 0.75 =
      ((Real.exp ((0.75 - 0.55991073) / 0.17883277) + 0.28466892) / 12) ^ (1.2 : ℝ) := by
  refine ⟨?_, ?_, rfl, ?_, ?_⟩
  · intro x
    unfold hlg_to_linear hlg_ootf hlg_oetf_inv kHlgA kHlgB kHlgC
    congr 1
    split
    · ring
    · rfl
  · intro l
    unfold hlg_from_linear hlg_oetf hlg_ootf_inv kHlgA kHlgB kHlgC
    rfl
  · intro x hx
    unfold hlg_to_linear kHlgA kHlgB kHlgC
    rw [if_pos hx]
    congr 1
    ring
  · unfold hlg_to_linear kHlgA kHlgB kHlgC
    rw [if_neg (by norm_num)]

theorem C6_hlg_eotf_canonical_witness :
    hlg_to_linear 0.25 = ((0.25 : ℝ) ^ 2 / 3) ^ (1.2 : ℝ) :=
  C6_hlg_eotf_canonical.2.2.2.1 0.25 (by norm_num)

/-! ### The spec-side reference pipeline (for the refinement claim C1)

These definitions follow the wording of the spec (section 4.2, steps 1-6)
rather than the source text; C1 compares the two. -/

namespace SpecModel

/-- Spec step 1: mid-tone focal-plane exposure `10 / iso_setting`. -/
def exposure (p : photon_noise_args_t) : ℝ := 10 / (p.iso_setting : ℝ)

/-- Spec step 2: per-pixel area `(36000 × 24000) / (width × height)`. -/
def area (p : photon_noise_args_t) : ℝ := (36000 * 24000) / ((p.width : ℝ) * (p.height : ℝ))

/-- Spec step 3: mid-tone electron count `0.20 × 11260 × exposure × area`. -/
def midToneElectrons (p : photon_noise_args_t) : ℝ := 0.20 * 11260 * exposure p * area p

/-- Spec step 4: full-scale electron count, mid-tone electrons over `mid_tone`. -/
def fullScaleElectrons (p : photon_noise_args_t) : ℝ :=
  midToneElectrons p / p.transfer_function.mid_tone

/-- Spec step 5: the sample points `x_i = i/13`. -/
def samplePoint (i : ℕ) : ℝ := (i : ℝ) / 13

/-- Spec step 5b: expected electrons `full_scale × to_linear(x_i)`. -/
def electronsAt (p : photon_noise_args_t) (i : ℕ) : ℝ :=
  fullScaleElectrons p * p.transfer_function.to_linear (samplePoint i)

/-- Spec step 5c: quadrature sum of read noise `1.5`, shot noise (variance
`electrons`) and non-uniformity `(0.005 × electrons)²`. -/
def noiseElectrons (p : photon_noise_args_t) (i : ℕ) : ℝ :=
  Real.sqrt (1.5 ^ 2 + electronsAt p i + (0.005 * electronsAt p i) ^ 2)

/-- Spec step 5d: noise as a linear-light fraction. -/
def linearNoise (p : photon_noise_args_t) (i : ℕ) : ℝ :=
  noiseElectrons p i / fullScaleElectrons p

/-- Spec step 5e: `±2`-noise interval around the sample, clipped to `[0,1]`. -/
def rangeStart (p : photon_noise_args_t) (i : ℕ) : ℝ :=
  max 0 (p.transfer_function.to_linear (samplePoint i) - 2 * linearNoise p i)

def rangeEnd (p : photon_noise_args_t) (i : ℕ) : ℝ :=
  min 1 (p.transfer_function.to_linear (samplePoint i) + 2 * linearNoise p i)

/-- Spec step 5f: finite-difference slope of `from_linear` over the interval. -/
def slope (p : photon_noise_args_t) (i : ℕ) : ℝ :=
  (p.transfer_function.from_linear (rangeEnd p i) -
    p.transfer_function.from_linear (rangeStart p i)) / (rangeEnd p i - rangeStart p i)

/-- Spec step 5g: encoded-domain noise amplitude. -/
def encodedNoise (p : photon_noise_args_t) (i : ℕ) : ℝ := linearNoise p i * slope p i

/-- Spec step 6 as quoted by C1: quantized amplitude `round(255 × 7.88 × encoded_noise)`
(C1 omits the upper clamp the source applies). -/
def quantizedNoise (p : photon_noise_args_t) (i : ℕ) : ℤ :=
  roundZ (255 * 7.88 * encodedNoise p i)

end SpecModel

lemma spec_full_scale_eq (p : photon_noise_args_t) :
    SpecModel.fullScaleElectrons p = max_electrons_per_pixel p := rfl

lemma spec_noise_eq (p : photon_noise_args_t) (i : ℕ) :
    SpecModel.noiseElectrons p i = noise_in_electrons p i := by
  unfold SpecModel.noiseElectrons noise_in_electrons kInputReferredReadNoise
    kPhotoResponseNonUniformity
  congr 1
  have h : SpecModel.electronsAt p i = electrons_per_pixel p i := rfl
  rw [h]
  ring

lemma spec_linear_noise_eq (p : photon_noise_args_t) (i : ℕ) :
    SpecModel.linearNoise p i = linear_noise p i := by
  unfold SpecModel.linearNoise linear_noise
  rw [spec_noise_eq, spec_full_scale_eq]

lemma spec_range_start_eq (p : photon_noise_args_t) (i : ℕ) :
    SpecModel.rangeStart p i = linear_range_start p i := by
  unfold SpecModel.rangeStart linear_range_start
  rw [maxf_eq_max, spec_linear_noise_eq]
  rfl

lemma spec_range_end_eq (p : photon_noise_args_t) (i : ℕ) :
    SpecModel.rangeEnd p i = linear_range_end p i := by
  unfold SpecModel.rangeEnd linear_range_end
  rw [minf_eq_min, spec_linear_noise_eq]
  rfl

lemma spec_encoded_eq (p : photon_noise_args_t) (i : ℕ) :
    SpecModel.encodedNoise p i = encoded_noise p i := by
  unfold SpecModel.encodedNoise encoded_noise SpecModel.slope tf_slope
  rw [spec_linear_noise_eq, spec_range_start_eq, spec_range_end_eq]

/-- The emitted amplitude is exactly the spec-side quantity clamped above at 255. -/
lemma emitted_eq_min_spec (p : photon_noise_args_t) (i : ℕ) :
    scaling_point_noise p i = min 255 (SpecModel.quantizedNoise p i) := by
  rw [scaling_point_noise_eq]
  unfold SpecModel.quantizedNoise
  rw [spec_encoded_eq]

/-- A degenerate but positive invocation: one pixel per µm² at ISO 1000000 with
the gamma-2.2 curve.  Here the unclamped reference quantity exceeds 255. -/
def cexArgs : photon_noise_args_t :=
  { width := 36000, height := 24000, iso_setting := 1000000,
    transfer_function := kGamma22TransferFunction }

lemma cex_full_scale : SpecModel.fullScaleElectrons cexArgs = 563 / 4500 := by
  unfold SpecModel.fullScaleElectrons SpecModel.midToneElectrons SpecModel.exposure
    SpecModel.area cexArgs
  norm_num [kGamma22TransferFunction]

lemma cex_linear : cexArgs.transfer_function.to_linear (SpecModel.samplePoint 0) = 0 := by
  show gamma22_to_linear (SpecModel.samplePoint 0) = 0
  rw [show SpecModel.samplePoint 0 = 0 by norm_num [SpecModel.samplePoint]]
  unfold gamma22_to_linear
  exact Real.zero_rpow (by norm_num)

lemma cex_linear_noise : SpecModel.linearNoise cexArgs 0 = 6750 / 563 := by
  have h_elec : SpecModel.electronsAt cexArgs 0 = 0 := by
    unfold SpecModel.electronsAt
    rw [cex_linear, mul_zero]
  have h_noise : SpecModel.noiseElectrons cexArgs 0 = 1.5 := by
    unfold SpecModel.noiseElectrons
    rw [h_elec, show ((1.5 : ℝ) ^ 2 + 0 + (0.005 * 0) ^ 2) = 1.5 ^ 2 by norm_num,
      Real.sqrt_sq (by norm_num : (0 : ℝ) ≤ 1.5)]
  unfold SpecModel.linearNoise
  rw [h_noise, cex_full_scale]
  norm_num

lemma cex_quantized : SpecModel.quantizedNoise cexArgs 0 = 24091 := by
  have h_start : SpecModel.rangeStart cexArgs 0 = 0 := by
    unfold SpecModel.rangeStart
    rw [cex_linear, cex_linear_noise, max_eq_left (by norm_num)]
  have h_end : SpecModel.rangeEnd cexArgs 0 = 1 := by
    unfold SpecModel.rangeEnd
    rw [cex_linear, cex_linear_noise, min_eq_left (by norm_num)]
  have h_from1 : cexArgs.transfer_function.from_linear 1 = 1 := by
    show gamma22_from_linear 1 = 1
    unfold gamma22_from_linear
    exact Real.one_rpow _
  have h_from0 : cexArgs.transfer_function.from_linear 0 = 0 := by
    show gamma22_from_linear 0 = 0
    unfold gamma22_from_linear
    exact Real.zero_rpow (by norm_num)
  have h_slope : SpecModel.slope cexArgs 0 = 1 := by
    unfold SpecModel.slope
    rw [h_start, h_end, h_from1, h_from0]
    norm_num
  have h_enc : SpecModel.encodedNoise cexArgs 0 = 6750 / 563 := by
    unfold SpecModel.encodedNoise
    rw [cex_linear_noise, h_slope, mul_one]
  unfold SpecModel.quantizedNoise
  rw [h_enc]
  exact roundZ_eq_of (by norm_num) (by norm_num) (by norm_num)

/-- C1 counterexample: at width 36000, height 24000, ISO 1000000 (all positive)
with the catalog gamma-2.2 curve, the synthesizer emits amplitude 255 at sample 0
while the claim's unclamped reference quantity `round(255·7.88·encoded_noise)`
is 24091 — the claim's equality fails because the source clamps at 255. -/
theorem C1_reference_pipeline_counterexample :
    0 < cexArgs.width ∧ 0 < cexArgs.height ∧ 0 < cexArgs.iso_setting ∧
    cexArgs.transfer_function ∈ catalog ∧
    ((generate_photon_noise cexArgs zeroed_film_grain).scaling_points_y 0).2 = 255 ∧
    SpecModel.quantizedNoise cexArgs 0 = 24091 ∧
    ((generate_photon_noise cexArgs zeroed_film_grain).scaling_points_y 0).2 ≠
      SpecModel.quantizedNoise cexArgs 0 := by
  have hemit : ((generate_photon_noise cexArgs zeroed_film_grain).scaling_points_y 0).2 =
      scaling_point_noise cexArgs 0 := by
    simp [generate_photon_noise]
  have h255 : scaling_point_noise cexArgs 0 = 255 := by
    rw [emitted_eq_min_spec, cex_quantized]
    decide
  refine ⟨by norm_num [cexArgs], by norm_num [cexArgs], by norm_num [cexArgs],
    by simp [cexArgs, catalog], ?_, cex_quantized, ?_⟩
  · rw [hemit, h255]
  · rw [hemit, h255, cex_quantized]
    decide

/-- C1 (amended): for every invocation with positive width, height and ISO and a
catalog transfer function, the emitted amplitude at each of the 14 sample points
equals the reference pipeline of the claim with its final quantization clamped
above at 255: `min(255, round(255 × 7.88 × encoded_noise))`.  (The clamp — present
in the source — is the only change the counterexample forces.) -/
theorem C1_reference_pipeline (p : photon_noise_args_t) (fg : aom_film_grain_t)
    (hw : 0 < p.width) (hh : 0 < p.height) (hiso : 0 < p.iso_setting)
    (htf : p.transfer_function ∈ catalog) (i : ℕ) (hi : i < 14) :
    ((generate_photon_noise p fg).scaling_points_y i).2 =
      min 255 (SpecModel.quantizedNoise p i) := by
  have hemit : ((generate_photon_noise p fg).scaling_points_y i).2 =
      scaling_point_noise p i := by
    simp [generate_photon_noise, hi]
  rw [hemit, emitted_eq_min_spec]

theorem C1_reference_pipeline_witness :
    ((generate_photon_noise exampleArgs zeroed_film_grain).scaling_points_y 0).2 =
      min 255 (SpecModel.quantizedNoise exampleArgs 0) :=
  C1_reference_pipeline exampleArgs zeroed_film_grain (by norm_num [exampleArgs])
    (by norm_num [exampleArgs]) (by norm_num [exampleArgs]) (by simp [exampleArgs, catalog])
    0 (by norm_num)

/-! ### Gamma curves: monotonicity, range and exact round trips -/

lemma rpow_nat_div_lt_iff {x q : ℝ} (hx : 0 ≤ x) (hq : 0 ≤ q) (num den : ℕ) (hden : den ≠ 0) :
    x ^ (((num : ℕ) : ℝ) / ((den : ℕ) : ℝ)) < q ↔ x ^ num < q ^ den := by
  rw [← not_le, ← not_le, le_rpow_nat_div_iff hx hq num den hden]

lemma lt_rpow_nat_div_iff {x q : ℝ} (hx : 0 ≤ x) (hq : 0 ≤ q) (num den : ℕ) (hden : den ≠ 0) :
    q < x ^ (((num : ℕ) : ℝ) / ((den : ℕ) : ℝ)) ↔ q ^ den < x ^ num := by
  rw [← not_le, ← not_le, rpow_nat_div_le_iff hx hq num den hden]

lemma gamma22_to_mono {x y : ℝ} (hx : 0 ≤ x) (hxy : x ≤ y) :
    gamma22_to_linear x ≤ gamma22_to_linear y :=
  Real.rpow_le_rpow hx hxy (by norm_num)

lemma gamma22_from_mono {x y : ℝ} (hx : 0 ≤ x) (hxy : x ≤ y) :
    gamma22_from_linear x ≤ gamma22_from_linear y :=
  Real.rpow_le_rpow hx hxy (by norm_num)

lemma gamma28_to_mono {x y : ℝ} (hx : 0 ≤ x) (hxy : x ≤ y) :
    gamma28_to_linear x ≤ gamma28_to_linear y :=
  Real.rpow_le_rpow hx hxy (by norm_num)

lemma gamma28_from_mono {x y : ℝ} (hx : 0 ≤ x) (hxy : x ≤ y) :
    gamma28_from_linear x ≤ gamma28_from_linear y :=
  Real.rpow_le_rpow hx hxy (by norm_num)

lemma gamma22_to_maps01 {x : ℝ} (hx : 0 ≤ x) (hx1 : x ≤ 1) :
    0 ≤ gamma22_to_linear x ∧ gamma22_to_linear x ≤ 1 :=
  ⟨Real.rpow_nonneg hx _, Real.rpow_le_one hx hx1 (by norm_num)⟩

lemma gamma28_to_maps01 {x : ℝ} (hx : 0 ≤ x) (hx1 : x ≤ 1) :
    0 ≤ gamma28_to_linear x ∧ gamma28_to_linear x ≤ 1 :=
  ⟨Real.rpow_nonneg hx _, Real.rpow_le_one hx hx1 (by norm_num)⟩

lemma gamma22_round_from_to {x : ℝ} (hx : 0 ≤ x) :
    gamma22_from_linear (gamma22_to_linear x) = x := by
  unfold gamma22_to_linear gamma22_from_linear
  rw [← Real.rpow_mul hx, show ((2.2 : ℝ) * (1 / 2.2)) = 1 by norm_num, Real.rpow_one]

lemma gamma22_round_to_from {y : ℝ} (hy : 0 ≤ y) :
    gamma22_to_linear (gamma22_from_linear y) = y := by
  unfold gamma22_to_linear gamma22_from_linear
  rw [← Real.rpow_mul hy, show ((1 / 2.2 : ℝ) * 2.2) = 1 by norm_num, Real.rpow_one]

lemma gamma28_round_from_to {x : ℝ} (hx : 0 ≤ x) :
    gamma28_from_linear (gamma28_to_linear x) = x := by
  unfold gamma28_to_linear gamma28_from_linear
  rw [← Real.rpow_mul hx, show ((2.8 : ℝ) * (1 / 2.8)) = 1 by norm_num, Real.rpow_one]

lemma gamma28_round_to_from {y : ℝ} (hy : 0 ≤ y) :
    gamma28_to_linear (gamma28_from_linear y) = y := by
  unfold gamma28_to_linear gamma28_from_linear
  rw [← Real.rpow_mul hy, show ((1 / 2.8 : ℝ) * 2.8) = 1 by norm_num, Real.rpow_one]

/-! ### sRGB: monotonicity (forward), ε-monotonicity and jump (inverse), round trips -/

lemma srgb_cross_to : (0.04045 / 12.92 : ℝ) ≤ ((0.04045 + 0.055) / 1.055) ^ (2.4 : ℝ) := by
  rw [show (2.4 : ℝ) = ((12 : ℕ) : ℝ) / ((5 : ℕ) : ℝ) by norm_num,
    le_rpow_nat_div_iff (by norm_num) (by norm_num) 12 5 (by norm_num)]
  norm_num

lemma srgb_to_mono {x y : ℝ} (hx : 0 ≤ x) (hxy : x ≤ y) :
    srgb_to_linear x ≤ srgb_to_linear y := by
  unfold srgb_to_linear
  by_cases h1 : x ≤ 0.04045 <;> by_cases h2 : y ≤ 0.04045
  · rw [if_pos h1, if_pos h2]
    exact div_le_div_of_le (by norm_num) hxy
  · rw [if_pos h1, if_neg h2]
    push_neg at h2
    calc x / 12.92 ≤ 0.04045 / 12.92 := div_le_div_of_le (by norm_num) h1
      _ ≤ ((0.04045 + 0.055) / 1.055) ^ (2.4 : ℝ) := srgb_cross_to
      _ ≤ ((y + 0.055) / 1.055) ^ (2.4 : ℝ) := by
          apply Real.rpow_le_rpow (by norm_num) _ (by norm_num)
          rw [div_eq_mul_inv, div_eq_mul_inv]
          exact mul_le_mul_of_nonneg_right (by linarith) (by norm_num)
  · exact absurd (hxy.trans h2) h1
  · rw [if_neg h1, if_neg h2]
    apply Real.rpow_le_rpow (div_nonneg (by linarith) (by norm_num)) _ (by norm_num)
    rw [div_eq_mul_inv, div_eq_mul_inv]
    exact mul_le_mul_of_nonneg_right (by linarith) (by norm_num)

lemma srgb_from_zero : srgb_from_linear 0 = 0 := by
  unfold srgb_from_linear
  rw [if_pos (by norm_num)]
  ring

lemma srgb_from_one : srgb_from_linear 1 = 1 := by
  unfold srgb_from_linear
  rw [if_neg (by norm_num), Real.one_rpow]
  norm_num

/-- On the power branch the inverse sRGB map stays above `0.0404499`. -/
lemma srgb_from_pow_lb {l : ℝ} (hl : 0.0031308 ≤ l) :
    (0.0404499 : ℝ) ≤ 1.055 * l ^ (1 / 2.4 : ℝ) - 0.055 := by
  have h1 : ((0.0031308 : ℝ)) ^ (1 / 2.4 : ℝ) ≤ l ^ (1 / 2.4 : ℝ) :=
    Real.rpow_le_rpow (by norm_num) hl (by norm_num)
  have h2 : ((0.0404499 + 0.055) / 1.055 : ℝ) ≤ (0.0031308 : ℝ) ^ (1 / 2.4 : ℝ) := by
    rw [show (1 / 2.4 : ℝ) = ((5 : ℕ) : ℝ) / ((12 : ℕ) : ℝ) by norm_num,
      le_rpow_nat_div_iff (by norm_num) (by norm_num) 5 12 (by norm_num)]
    norm_num
  linarith

/-- `srgb_from_linear` is monotone up to an additive slack of `10⁻⁷` (it has a
downward jump of about `2.9·10⁻⁸` at the branch boundary `0.0031308`). -/
lemma srgb_from_eps {x y : ℝ} (hxy : x ≤ y) :
    srgb_from_linear x ≤ srgb_from_linear y + 0.0000001 := by
  unfold srgb_from_linear
  by_cases h1 : x ≤ 0.0031308 <;> by_cases h2 : y ≤ 0.0031308
  · rw [if_pos h1, if_pos h2]
    linarith
  · rw [if_pos h1, if_neg h2]
    push_neg at h2
    have := srgb_from_pow_lb h2.le
    linarith
  · exact absurd (hxy.trans h2) h1
  · rw [if_neg h1, if_neg h2]
    push_neg at h1
    have := Real.rpow_le_rpow (by linarith : (0 : ℝ) ≤ x) hxy (by norm_num : (0 : ℝ) ≤ 1 / 2.4)
    linarith

/-- The exact-real sRGB inverse map is not monotone: it decreases across the
`0.0031308` branch boundary. -/
lemma srgb_from_jump : srgb_from_linear 0.00313080001 < srgb_from_linear 0.0031308 := by
  unfold srgb_from_linear
  rw [if_pos (by norm_num : (0.0031308 : ℝ) ≤ 0.0031308),
    if_neg (by norm_num : ¬((0.00313080001 : ℝ) ≤ 0.0031308))]
  have h : (0.00313080001 : ℝ) ^ (1 / 2.4 : ℝ) < (0.040449936 + 0.055) / 1.055 := by
    rw [show (1 / 2.4 : ℝ) = ((5 : ℕ) : ℝ) / ((12 : ℕ) : ℝ) by norm_num,
      rpow_nat_div_lt_iff (by norm_num) (by norm_num) 5 12 (by norm_num)]
    norm_num
  linarith

lemma srgb_round_to_from {y : ℝ} (hy : 0 ≤ y) (hy1 : y ≤ 1) :
    |srgb_to_linear (srgb_from_linear y) - y| ≤ 0.001 := by
  unfold srgb_from_linear
  by_cases h1 : y ≤ 0.0031308
  · rw [if_pos h1]
    unfold srgb_to_linear
    rw [if_pos (by linarith : (12.92 : ℝ) * y ≤ 0.04045)]
    rw [show (12.92 : ℝ) * y / 12.92 - y = 0 by field_simp]
    norm_num
  · rw [if_neg h1]
    push_neg at h1
    have hlb := srgb_from_pow_lb h1.le
    by_cases h2 : (1.055 : ℝ) * y ^ (1 / 2.4 : ℝ) - 0.055 ≤ 0.04045
    · unfold srgb_to_linear
      rw [if_pos h2]
      -- the tiny mismatch region: y ∈ (0.0031308, ≈0.00313081]
      have hyub : y ≤ 0.0031309 := by
        have hq : y ^ (1 / 2.4 : ℝ) ≤ (0.04045 + 0.055) / 1.055 := by linarith
        rw [show (1 / 2.4 : ℝ) = ((5 : ℕ) : ℝ) / ((12 : ℕ) : ℝ) by norm_num,
          rpow_nat_div_le_iff hy (by norm_num) 5 12 (by norm_num)] at hq
        have h5 : y ^ 5 ≤ (0.0031309 : ℝ) ^ 5 := by
          calc y ^ 5 ≤ (((0.04045 + 0.055) / 1.055 : ℝ)) ^ 12 := hq
            _ ≤ (0.0031309 : ℝ) ^ 5 := by norm_num
        exact (pow_le_pow_iff_left₀ hy (by norm_num) (by norm_num)).mp h5
      have hA : (1.055 * y ^ (1 / 2.4 : ℝ) - 0.055) / 12.92 ≤ 0.04045 / 12.92 :=
        div_le_div_of_le (by norm_num) h2
      have hB : (0.0404499 : ℝ) / 12.92 ≤ (1.055 * y ^ (1 / 2.4 : ℝ) - 0.055) / 12.92 :=
        div_le_div_of_le (by norm_num) hlb
      have hC : (0.04045 : ℝ) / 12.92 ≤ 0.0031309 := by norm_num
      have hD : (0.0031306 : ℝ) ≤ 0.0404499 / 12.92 := by norm_num
      rw [abs_le]
      constructor <;> linarith
    · unfold srgb_to_linear
      rw [if_neg h2]
      have hkey : ((1.055 * y ^ (1 / 2.4 : ℝ) - 0.055 + 0.055) / 1.055 : ℝ) =
          y ^ (1 / 2.4 : ℝ) := by
        field_simp
      rw [hkey, ← Real.rpow_mul hy, show ((1 / 2.4 : ℝ) * 2.4) = 1 by norm_num, Real.rpow_one]
      norm_num

lemma srgb_round_from_to {x : ℝ} (hx : 0 ≤ x) (hx1 : x ≤ 1) :
    |srgb_from_linear (srgb_to_linear x) - x| ≤ 0.001 := by
  unfold srgb_to_linear
  by_cases h1 : x ≤ 0.04045
  · rw [if_pos h1]
    unfold srgb_from_linear
    by_cases h2 : x / 12.92 ≤ (0.0031308 : ℝ)
    · rw [if_pos h2, show (12.92 : ℝ) * (x / 12.92) - x = 0 by field_simp]
      norm_num
    · rw [if_neg h2]
      push_neg at h2
      -- x ∈ (0.040449936, 0.04045]
      have hxlb : (0.040449936 : ℝ) ≤ x := by
        have := (lt_div_iff (by norm_num : (0 : ℝ) < 12.92)).mp h2
        linarith
      have hlb := srgb_from_pow_lb (le_of_lt h2)
      have hub : (x / 12.92 : ℝ) ^ (1 / 2.4 : ℝ) ≤ 0.0905 := by
        have hmono : (x / 12.92 : ℝ) ^ (1 / 2.4 : ℝ) ≤ (0.04045 / 12.92 : ℝ) ^ (1 / 2.4 : ℝ) :=
          Real.rpow_le_rpow (by positivity) (div_le_div_of_le (by norm_num) h1) (by norm_num)
        have hnum : (0.04045 / 12.92 : ℝ) ^ (1 / 2.4 : ℝ) ≤ 0.0905 := by
          rw [show (1 / 2.4 : ℝ) = ((5 : ℕ) : ℝ) / ((12 : ℕ) : ℝ) by norm_num,
            rpow_nat_div_le_iff (by norm_num) (by norm_num) 5 12 (by norm_num)]
          norm_num
        linarith
      rw [abs_le]
      constructor <;> nlinarith
  · rw [if_neg h1]
    push_neg at h1
    have hbase : (0 : ℝ) ≤ (x + 0.055) / 1.055 := by positivity
    have hgt : (0.0031308 : ℝ) < ((x + 0.055) / 1.055) ^ (2.4 : ℝ) := by
      have hb1 : ((0.04045 + 0.055) / 1.055 : ℝ) ^ (2.4 : ℝ) ≤
          ((x + 0.055) / 1.055) ^ (2.4 : ℝ) := by
        apply Real.rpow_le_rpow (by norm_num) _ (by norm_num)
        rw [div_eq_mul_inv, div_eq_mul_inv]
        exact mul_le_mul_of_nonneg_right (by linarith) (by norm_num)
      have hb2 : (0.0031308 : ℝ) < ((0.04045 + 0.055) / 1.055 : ℝ) ^ (2.4 : ℝ) := by
        rw [show (2.4 : ℝ) = ((12 : ℕ) : ℝ) / ((5 : ℕ) : ℝ) by norm_num,
          lt_rpow_nat_div_iff (by norm_num) (by norm_num) 12 5 (by norm_num)]
        norm_num
      linarith
    unfold srgb_from_linear
    rw [if_neg (not_le.mpr hgt), ← Real.rpow_mul hbase,
      show ((2.4 : ℝ) * (1 / 2.4)) = 1 by norm_num, Real.rpow_one,
      show (1.055 * ((x + 0.055) / 1.055) - 0.055 - x : ℝ) = 0 by field_simp]
    norm_num

/-! ### PQ (SMPTE ST 2084): monotonicity, range and round trips -/

lemma pq_denom_pos {u : ℝ} (hu1 : u ≤ 1) : 0 < kPqC2 - kPqC3 * u := by
  have h : kPqC3 * u ≤ kPqC3 * 1 := mul_le_mul_of_nonneg_left hu1 (by norm_num [kPqC3])
  norm_num [kPqC2, kPqC3] at h ⊢
  linarith

lemma pq_ratio_nonneg {u : ℝ} (hu1 : u ≤ 1) :
    0 ≤ maxf 0 (u - kPqC1) / (kPqC2 - kPqC3 * u) := by
  rw [maxf_eq_max]
  exact div_nonneg (le_max_left 0 _) (pq_denom_pos hu1).le

lemma pq_ratio_le_one {u : ℝ} (hu1 : u ≤ 1) :
    maxf 0 (u - kPqC1) / (kPqC2 - kPqC3 * u) ≤ 1 := by
  rw [maxf_eq_max, div_le_one (pq_denom_pos hu1)]
  apply max_le (pq_denom_pos hu1).le
  norm_num [kPqC1, kPqC2, kPqC3]
  linarith

lemma pq_to_maps01 {x : ℝ} (hx : 0 ≤ x) (hx1 : x ≤ 1) :
    0 ≤ pq_to_linear x ∧ pq_to_linear x ≤ 1 := by
  have hu1 : x ^ (1 / kPqM2) ≤ 1 := Real.rpow_le_one hx hx1 (by norm_num [kPqM2])
  unfold pq_to_linear
  exact ⟨Real.rpow_nonneg (pq_ratio_nonneg hu1) _,
    Real.rpow_le_one (pq_ratio_nonneg hu1) (pq_ratio_le_one hu1) (by norm_num [kPqM1])⟩

lemma pq_to_mono {x y : ℝ} (hx : 0 ≤ x) (hxy : x ≤ y) (hy1 : y ≤ 1) :
    pq_to_linear x ≤ pq_to_linear y := by
  have hu0 : 0 ≤ x ^ (1 / kPqM2) := Real.rpow_nonneg hx _
  have humono : x ^ (1 / kPqM2) ≤ y ^ (1 / kPqM2) :=
    Real.rpow_le_rpow hx hxy (by norm_num [kPqM2])
  have hy1' : y ^ (1 / kPqM2) ≤ 1 := Real.rpow_le_one (hx.trans hxy) hy1 (by norm_num [kPqM2])
  have hx1' : x ^ (1 / kPqM2) ≤ 1 := humono.trans hy1'
  unfold pq_to_linear
  apply Real.rpow_le_rpow (pq_ratio_nonneg hx1') _ (by norm_num [kPqM1])
  rw [maxf_eq_max, maxf_eq_max]
  apply div_le_div (le_max_left 0 _) (max_le_max le_rfl (by linarith)) (pq_denom_pos hy1')
  have := mul_le_mul_of_nonneg_left humono (by norm_num [kPqC3] : (0 : ℝ) ≤ kPqC3)
  linarith

lemma pq_from_nonneg {y : ℝ} (hy : 0 ≤ y) : 0 ≤ pq_from_linear y := by
  unfold pq_from_linear
  have ht : 0 ≤ y ^ kPqM1 := Real.rpow_nonneg hy _
  apply Real.rpow_nonneg
  have h1 : (0 : ℝ) < 1 + kPqC3 * y ^ kPqM1 := by
    have := mul_nonneg (by norm_num [kPqC3] : (0 : ℝ) ≤ kPqC3) ht
    linarith
  apply div_nonneg _ h1.le
  have := mul_nonneg (by norm_num [kPqC2] : (0 : ℝ) ≤ kPqC2) ht
  norm_num [kPqC1]
  linarith

lemma pq_from_mono {x y : ℝ} (hx : 0 ≤ x) (hxy : x ≤ y) :
    pq_from_linear x ≤ pq_from_linear y := by
  unfold pq_from_linear
  have ht0 : 0 ≤ x ^ kPqM1 := Real.rpow_nonneg hx _
  have htm : x ^ kPqM1 ≤ y ^ kPqM1 := Real.rpow_le_rpow hx hxy (by norm_num [kPqM1])
  set t₁ := x ^ kPqM1
  set t₂ := y ^ kPqM1
  have hd1 : (0 : ℝ) < 1 + kPqC3 * t₁ := by
    have := mul_nonneg (by norm_num [kPqC3] : (0 : ℝ) ≤ kPqC3) ht0
    linarith
  have hd2 : (0 : ℝ) < 1 + kPqC3 * t₂ := by
    have := mul_nonneg (by norm_num [kPqC3] : (0 : ℝ) ≤ kPqC3) (ht0.trans htm)
    linarith
  apply Real.rpow_le_rpow
  · apply div_nonneg _ hd1.le
    have := mul_nonneg (by norm_num [kPqC2] : (0 : ℝ) ≤ kPqC2) ht0
    norm_num [kPqC1]
    linarith
  · rw [div_le_div_iff hd1 hd2]
    have hkey : 0 ≤ (kPqC2 - kPqC1 * kPqC3) * (t₂ - t₁) :=
      mul_nonneg (by norm_num [kPqC1, kPqC2, kPqC3]) (by linarith)
    nlinarith [hkey]
  · norm_num [kPqM2]

lemma pq_round_to_from {y : ℝ} (hy : 0 ≤ y) : pq_to_linear (pq_from_linear y) = y := by
  have ht0 : 0 ≤ y ^ kPqM1 := Real.rpow_nonneg hy _
  set t := y ^ kPqM1 with htdef
  have hs : (0 : ℝ) < 1 + kPqC3 * t := by
    have := mul_nonneg (by norm_num [kPqC3] : (0 : ℝ) ≤ kPqC3) ht0
    linarith
  set h := (kPqC1 + kPqC2 * t) / (1 + kPqC3 * t) with hhdef
  have hh0 : 0 ≤ h := by
    apply div_nonneg _ hs.le
    have := mul_nonneg (by norm_num [kPqC2] : (0 : ℝ) ≤ kPqC2) ht0
    norm_num [kPqC1]
    linarith
  have hfrom : pq_from_linear y = h ^ kPqM2 := rfl
  have hu : (h ^ kPqM2) ^ (1 / kPqM2) = h := by
    rw [← Real.rpow_mul hh0, mul_one_div_cancel (by norm_num [kPqM2] : (kPqM2 : ℝ) ≠ 0),
      Real.rpow_one]
  have hge : kPqC1 ≤ h := by
    rw [hhdef, le_div_iff hs]
    have := mul_nonneg (by norm_num [kPqC1, kPqC2, kPqC3] :
      (0 : ℝ) ≤ kPqC2 - kPqC1 * kPqC3) ht0
    nlinarith
  have hd2 : kPqC2 - kPqC3 * h = (kPqC2 - kPqC1 * kPqC3) / (1 + kPqC3 * t) := by
    rw [hhdef]
    field_simp
    ring
  have hd2pos : 0 < kPqC2 - kPqC3 * h := by
    rw [hd2]
    apply div_pos (by norm_num [kPqC1, kPqC2, kPqC3]) hs
  have hnum : h - kPqC1 = (kPqC2 - kPqC1 * kPqC3) * t / (1 + kPqC3 * t) := by
    rw [hhdef]
    field_simp
    ring
  have hratio : maxf 0 (h - kPqC1) / (kPqC2 - kPqC3 * h) = t := by
    rw [maxf_eq_max, max_eq_right (by linarith : (0 : ℝ) ≤ h - kPqC1), hnum, hd2]
    rw [div_div_div_cancel_right₀]
    · exact mul_div_cancel_left₀ t (by norm_num [kPqC1, kPqC2, kPqC3])
    · exact ne_of_gt hs
  unfold pq_to_linear
  rw [hfrom, hu, hratio, htdef, ← Real.rpow_mul hy,
    mul_one_div_cancel (by norm_num [kPqM1] : (kPqM1 : ℝ) ≠ 0), Real.rpow_one]

lemma pq_c1_pow_small : kPqC1 ^ kPqM2 ≤ (0.000001 : ℝ) := by
  have h1 : kPqC1 ^ kPqM2 ≤ kPqC1 ^ ((78 : ℕ) : ℝ) := by
    apply Real.rpow_le_rpow_of_exponent_ge (by norm_num [kPqC1]) (by norm_num [kPqC1])
    norm_num [kPqM2]
  have h2 : kPqC1 ^ ((78 : ℕ) : ℝ) = kPqC1 ^ (78 : ℕ) := Real.rpow_natCast _ 78
  have h3 : kPqC1 ^ (78 : ℕ) ≤ (0.000001 : ℝ) := by
    norm_num [kPqC1]
  linarith

lemma pq_round_from_to {x : ℝ} (hx : 0 ≤ x) (hx1 : x ≤ 1) :
    |pq_from_linear (pq_to_linear x) - x| ≤ 0.001 := by
  have hc1m2_nonneg : (0 : ℝ) ≤ kPqC1 ^ kPqM2 :=
    Real.rpow_nonneg (by norm_num [kPqC1]) _
  by_cases hclip : x ≤ kPqC1 ^ kPqM2
  · -- the clipped toe: to_linear collapses to 0, from_linear 0 = c1^m2 ≤ 10⁻⁶
    have hu_le : x ^ (1 / kPqM2) ≤ kPqC1 := by
      have h1 : x ^ (1 / kPqM2) ≤ (kPqC1 ^ kPqM2) ^ (1 / kPqM2) :=
        Real.rpow_le_rpow hx hclip (by norm_num [kPqM2])
      rw [← Real.rpow_mul (by norm_num [kPqC1] : (0 : ℝ) ≤ kPqC1),
        mul_one_div_cancel (by norm_num [kPqM2] : (kPqM2 : ℝ) ≠ 0), Real.rpow_one] at h1
      exact h1
    have hto : pq_to_linear x = 0 := by
      unfold pq_to_linear
      rw [maxf_eq_max, max_eq_left (by linarith), zero_div,
        Real.zero_rpow (by norm_num [kPqM1])]
    have hfrom0 : pq_from_linear 0 = kPqC1 ^ kPqM2 := by
      unfold pq_from_linear
      rw [Real.zero_rpow (by norm_num [kPqM1])]
      norm_num
    rw [hto, hfrom0, abs_le]
    have := pq_c1_pow_small
    constructor <;> linarith
  · -- off the toe the round trip is exact
    push_neg at hclip
    have hu_gt : kPqC1 < x ^ (1 / kPqM2) := by
      have h1 : (kPqC1 ^ kPqM2) ^ (1 / kPqM2) < x ^ (1 / kPqM2) :=
        Real.rpow_lt_rpow hc1m2_nonneg hclip (by norm_num [kPqM2])
      rw [← Real.rpow_mul (by norm_num [kPqC1] : (0 : ℝ) ≤ kPqC1),
        mul_one_div_cancel (by norm_num [kPqM2] : (kPqM2 : ℝ) ≠ 0), Real.rpow_one] at h1
      exact h1
    have hu1 : x ^ (1 / kPqM2) ≤ 1 := Real.rpow_le_one hx hx1 (by norm_num [kPqM2])
    set u := x ^ (1 / kPqM2) with hudef
    have hden := pq_denom_pos hu1
    have hto : pq_to_linear x =
        ((u - kPqC1) / (kPqC2 - kPqC3 * u)) ^ (1 / kPqM1) := by
      unfold pq_to_linear
      rw [maxf_eq_max, max_eq_right (by linarith : (0 : ℝ) ≤ u - kPqC1)]
    have hr0 : 0 ≤ (u - kPqC1) / (kPqC2 - kPqC3 * u) :=
      div_nonneg (by linarith) hden.le
    set r := (u - kPqC1) / (kPqC2 - kPqC3 * u) with hrdef
    have htr : (r ^ (1 / kPqM1)) ^ kPqM1 = r := by
      rw [← Real.rpow_mul hr0, one_div_mul_cancel (by norm_num [kPqM1] : (kPqM1 : ℝ) ≠ 0),
        Real.rpow_one]
    have hsr : (0 : ℝ) < 1 + kPqC3 * r := by
      have := mul_nonneg (by norm_num [kPqC3] : (0 : ℝ) ≤ kPqC3) hr0
      linarith
    have hmob : (kPqC1 + kPqC2 * r) / (1 + kPqC3 * r) = u := by
      rw [div_eq_iff (ne_of_gt hsr), hrdef]
      field_simp
      ring
    have hfrom : pq_from_linear (pq_to_linear x) = u ^ kPqM2 := by
      rw [hto]
      unfold pq_from_linear
      rw [htr, hmob]
    rw [hfrom, hudef, ← Real.rpow_mul hx,
      one_div_mul_cancel (by norm_num [kPqM2] : (kPqM2 : ℝ) ≠ 0), Real.rpow_one,
      sub_self, abs_zero]
    norm_num

/-! ### HLG: certified exponential bounds at the branch boundary

With the published rounded constants, `exp((0.5 - c)/a)` and `1 - b` differ by
about `1.9·10⁻⁹`; the sign of that difference decides the monotonicity of the
exact-real `hlg_to_linear` at `0.5`.  We certify it by rational Taylor bounds. -/

lemma hlg_y0_eq : ((0.5 : ℝ) - kHlgC) / kHlgA = -(5991073 / 17883277) := by
  norm_num [kHlgA, kHlgC]

/-- Lower Taylor bound: `(1 - b) · exp((c - 0.5)/a) > 1`, hence
`exp((0.5-c)/a) < 1 - b` — the inner HLG EOTF takes a downward jump at 0.5. -/
lemma hlg_key_lower : (1 : ℝ) < (1 - kHlgB) * Real.exp (5991073 / 17883277) := by
  have h0 : (0 : ℝ) ≤ 5991073 / 17883277 := by norm_num
  have hsum := Real.sum_le_exp_of_nonneg h0 13
  calc (1 : ℝ) <
      (1 - kHlgB) * ∑ i ∈ Finset.range 13, (5991073 / 17883277 : ℝ) ^ i / i.factorial := by
        simp only [Finset.sum_range_succ, Finset.sum_range_zero]
        norm_num [kHlgB, Nat.factorial]
    _ ≤ (1 - kHlgB) * Real.exp (5991073 / 17883277) := by
        apply mul_le_mul_of_nonneg_left hsum (by norm_num [kHlgB])

lemma hlg_exp_x0_lt : Real.exp ((0.5 - kHlgC) / kHlgA) < 1 - kHlgB := by
  rw [hlg_y0_eq, Real.exp_neg]
  have hpos := Real.exp_pos (5991073 / 17883277 : ℝ)
  rw [inv_eq_one_div, div_lt_iff hpos]
  linarith [hlg_key_lower]

/-- Upper Taylor bound on `exp((c - 0.5)/a)`. -/
lemma hlg_exp_upper : Real.exp (5991073 / 17883277 : ℝ) ≤ 1.3979560 := by
  have hb := Real.exp_bound' (by norm_num : (0 : ℝ) ≤ 5991073 / 17883277)
    (by norm_num : (5991073 / 17883277 : ℝ) ≤ 1) (by norm_num : 0 < 10)
  calc Real.exp (5991073 / 17883277 : ℝ) ≤
      (∑ i ∈ Finset.range 10, (5991073 / 17883277 : ℝ) ^ i / i.factorial) +
        (5991073 / 17883277 : ℝ) ^ 10 * (10 + 1) / ((10 : ℕ).factorial * 10) := hb
    _ ≤ 1.3979560 := by
        simp only [Finset.sum_range_succ, Finset.sum_range_zero]
        norm_num [Nat.factorial]

lemma hlg_exp_x0_ge : (0.715330 : ℝ) ≤ Real.exp ((0.5 - kHlgC) / kHlgA) := by
  rw [hlg_y0_eq, Real.exp_neg]
  have hpos := Real.exp_pos (5991073 / 17883277 : ℝ)
  rw [inv_eq_one_div, le_div_iff hpos]
  calc (0.715330 : ℝ) * Real.exp (5991073 / 17883277) ≤ 0.715330 * 1.3979560 := by
        exact mul_le_mul_of_nonneg_left hlg_exp_upper (by norm_num)
    _ ≤ 1 := by norm_num

/-- Upper bound at full scale: `exp((1 - c)/a) ≤ 11.7656` (so the exact-real
`hlg_to_linear 1` is only slightly above 1). -/
lemma hlg_exp_one_upper : Real.exp ((1 - kHlgC) / kHlgA) ≤ 11.7656 := by
  have harg : ((1 : ℝ) - kHlgC) / kHlgA = ((4 : ℕ) : ℝ) * (44008927 / 71533108 : ℝ) := by
    norm_num [kHlgA, kHlgC]
  rw [harg, Real.exp_nat_mul]
  have hy4 : Real.exp (44008927 / 71533108 : ℝ) ≤ 1.85030 := by
    have hb := Real.exp_bound' (by norm_num : (0 : ℝ) ≤ 44008927 / 71533108)
      (by norm_num : (44008927 / 71533108 : ℝ) ≤ 1) (by norm_num : 0 < 10)
    calc Real.exp (44008927 / 71533108 : ℝ) ≤
        (∑ i ∈ Finset.range 10, (44008927 / 71533108 : ℝ) ^ i / i.factorial) +
          (44008927 / 71533108 : ℝ) ^ 10 * (10 + 1) / ((10 : ℕ).factorial * 10) := hb
      _ ≤ 1.85030 := by
          simp only [Finset.sum_range_succ, Finset.sum_range_zero]
          norm_num [Nat.factorial]
  calc Real.exp (44008927 / 71533108 : ℝ) ^ 4 ≤ (1.85030 : ℝ) ^ 4 :=
        pow_le_pow_left (Real.exp_pos _).le hy4 4
    _ ≤ 11.7656 := by norm_num

/-! ### HLG: range, (ε-)monotonicity and round trips -/

lemma hlg_inner_nonneg (t : ℝ) : 0 ≤ (Real.exp t + kHlgB) / 12 := by
  have h1 := (Real.exp_pos t).le
  have hb : (0 : ℝ) ≤ kHlgB := by norm_num [kHlgB]
  exact div_nonneg (by linarith) (by norm_num)

lemma hlg_to_nonneg (x : ℝ) : 0 ≤ hlg_to_linear x := by
  unfold hlg_to_linear
  apply Real.rpow_nonneg
  split
  · exact div_nonneg (mul_self_nonneg _) (by norm_num)
  · exact hlg_inner_nonneg _

lemma hlg_exp_arg_mono {x y : ℝ} (hxy : x ≤ y) :
    (x - kHlgC) / kHlgA ≤ (y - kHlgC) / kHlgA :=
  div_le_div_of_le (by norm_num [kHlgA]) (by linarith)

/-- On `[0,1]` the exact-real HLG forward map stays below `1.01`. -/
lemma hlg_to_le101 {x : ℝ} (hx : 0 ≤ x) (hx1 : x ≤ 1) : hlg_to_linear x ≤ 1.01 := by
  unfold hlg_to_linear
  split
  · rename_i h
    have hin : x * x / 3 ≤ 1 := by nlinarith
    have := Real.rpow_le_one (by positivity : (0 : ℝ) ≤ x * x / 3) hin
      (by norm_num : (0 : ℝ) ≤ 1.2)
    linarith
  · rename_i h
    have hexp : Real.exp ((x - kHlgC) / kHlgA) ≤ 11.7656 :=
      le_trans (Real.exp_le_exp.mpr (hlg_exp_arg_mono hx1)) hlg_exp_one_upper
    have hin : (Real.exp ((x - kHlgC) / kHlgA) + kHlgB) / 12 ≤ 1.0042 := by
      rw [div_le_iff (by norm_num : (0 : ℝ) < 12)]
      norm_num [kHlgB]
      linarith
    have hin0 : (0 : ℝ) ≤ (Real.exp ((x - kHlgC) / kHlgA) + kHlgB) / 12 := by
      have := (Real.exp_pos ((x - kHlgC) / kHlgA)).le
      norm_num [kHlgB]
      linarith
    rcases le_or_lt ((Real.exp ((x - kHlgC) / kHlgA) + kHlgB) / 12) 1 with h1 | h1
    · have := Real.rpow_le_one hin0 h1 (by norm_num : (0 : ℝ) ≤ 1.2)
      linarith
    · calc ((Real.exp ((x - kHlgC) / kHlgA) + kHlgB) / 12) ^ (1.2 : ℝ)
          ≤ ((Real.exp ((x - kHlgC) / kHlgA) + kHlgB) / 12) ^ (2 : ℝ) :=
            Real.rpow_le_rpow_of_exponent_le h1.le (by norm_num)
        _ = ((Real.exp ((x - kHlgC) / kHlgA) + kHlgB) / 12) ^ (2 : ℕ) := Real.rpow_two _
        _ ≤ (1.0042 : ℝ) ^ (2 : ℕ) := pow_le_pow_left hin0 hin 2
        _ ≤ 1.01 := by norm_num

/-- `hlg_to_linear` is monotone up to an additive slack of `10⁻⁶` (in exact real
arithmetic it has a downward jump of  about `10⁻¹⁰` at `0.5`). -/
lemma hlg_to_eps {x y : ℝ} (hx : 0 ≤ x) (hxy : x ≤ y) (hy1 : y ≤ 1) :
    hlg_to_linear x ≤ hlg_to_linear y + 0.000001 := by
  unfold hlg_to_linear
  by_cases h1 : x ≤ 0.5 <;> by_cases h2 : y ≤ 0.5
  · rw [if_pos h1, if_pos h2]
    have hmono : x * x / 3 ≤ y * y / 3 := by nlinarith
    have := Real.rpow_le_rpow (by positivity : (0 : ℝ) ≤ x * x / 3) hmono
      (by norm_num : (0 : ℝ) ≤ 1.2)
    linarith
  · rw [if_pos h1, if_neg h2]
    push_neg at h2
    -- across the boundary: x side is at most (1/12)^1.2, y side at least a hair less
    have hxa : x * x / 3 ≤ 1 / 12 := by nlinarith
    have hxle : (x * x / 3 : ℝ) ^ (1.2 : ℝ) ≤ (1 / 12 : ℝ) ^ (1.2 : ℝ) :=
      Real.rpow_le_rpow (by positivity) hxa (by norm_num)
    have hexp_lb : (0.715330 : ℝ) ≤ Real.exp ((y - kHlgC) / kHlgA) :=
      le_trans hlg_exp_x0_ge (Real.exp_le_exp.mpr (hlg_exp_arg_mono h2.le))
    have hin_lb : ((0.715330 + kHlgB) / 12 : ℝ) ≤ (Real.exp ((y - kHlgC) / kHlgA) + kHlgB) / 12 :=
      div_le_div_of_le (by norm_num) (by linarith)
    have hylb : ((0.715330 + kHlgB) / 12 : ℝ) ^ (1.2 : ℝ) ≤
        ((Real.exp ((y - kHlgC) / kHlgA) + kHlgB) / 12) ^ (1.2 : ℝ) :=
      Real.rpow_le_rpow (by norm_num [kHlgB]) hin_lb (by norm_num)
    -- (1/12)^1.2 - ((q/12))^1.2 ≤ (1/12)·(1 - q²) ≤ 10⁻⁶ for q = 0.715330 + b
    have hsplit : ((0.715330 + kHlgB) / 12 : ℝ) ^ (1.2 : ℝ) =
        ((0.715330 + kHlgB : ℝ)) ^ (1.2 : ℝ) * (1 / 12 : ℝ) ^ (1.2 : ℝ) := by
      rw [← Real.mul_rpow (by norm_num [kHlgB]) (by norm_num)]
      congr 1
      ring
    have hq2 : ((0.715330 + kHlgB : ℝ)) ^ (2 : ℝ) ≤ ((0.715330 + kHlgB : ℝ)) ^ (1.2 : ℝ) :=
      Real.rpow_le_rpow_of_exponent_ge (by norm_num [kHlgB]) (by norm_num [kHlgB])
        (by norm_num)
    have hq2' : ((0.715330 + kHlgB : ℝ)) ^ (2 : ℝ) = ((0.715330 + kHlgB : ℝ)) ^ (2 : ℕ) :=
      Real.rpow_two _
    have h112 : ((1 / 12 : ℝ)) ^ (1.2 : ℝ) ≤ 1 / 12 := by
      have := Real.rpow_le_rpow_of_exponent_ge (by norm_num : (0 : ℝ) < 1 / 12)
        (by norm_num : (1 / 12 : ℝ) ≤ 1) (by norm_num : (1 : ℝ) ≤ 1.2)
      rwa [Real.rpow_one] at this
    have h112' : (0 : ℝ) ≤ ((1 / 12 : ℝ)) ^ (1.2 : ℝ) := Real.rpow_nonneg (by norm_num) _
    have hgap : (1 / 12 : ℝ) ^ (1.2 : ℝ) - ((0.715330 + kHlgB) / 12 : ℝ) ^ (1.2 : ℝ) ≤
        0.000001 := by
      rw [hsplit]
      have hfac : (1 : ℝ) - ((0.715330 + kHlgB : ℝ)) ^ (1.2 : ℝ) ≤
          1 - ((0.715330 + kHlgB : ℝ)) ^ (2 : ℕ) := by
        rw [← hq2']
        linarith
      calc (1 / 12 : ℝ) ^ (1.2 : ℝ) -
            ((0.715330 + kHlgB : ℝ)) ^ (1.2 : ℝ) * (1 / 12 : ℝ) ^ (1.2 : ℝ)
          = (1 / 12 : ℝ) ^ (1.2 : ℝ) * (1 - ((0.715330 + kHlgB : ℝ)) ^ (1.2 : ℝ)) := by ring
        _ ≤ (1 / 12 : ℝ) * (1 - ((0.715330 + kHlgB : ℝ)) ^ (2 : ℕ)) := by
            have hle1 : ((0.715330 + kHlgB : ℝ)) ^ (1.2 : ℝ) ≤ 1 :=
              Real.rpow_le_one (by norm_num [kHlgB]) (by norm_num [kHlgB]) (by norm_num)
            exact mul_le_mul h112 hfac (by linarith) (by norm_num)
        _ ≤ 0.000001 := by norm_num [kHlgB]
    linarith
  · push_neg at h1
    exact absurd (hxy.trans h2) (not_le.mpr h1)
  · rw [if_neg h1, if_neg h2]
    have hexp : Real.exp ((x - kHlgC) / kHlgA) ≤ Real.exp ((y - kHlgC) / kHlgA) :=
      Real.exp_le_exp.mpr (hlg_exp_arg_mono hxy)
    have hmono : (Real.exp ((x - kHlgC) / kHlgA) + kHlgB) / 12 ≤
        (Real.exp ((y - kHlgC) / kHlgA) + kHlgB) / 12 :=
      div_le_div_of_le (by norm_num) (by linarith)
    have := Real.rpow_le_rpow (hlg_inner_nonneg _) hmono (by norm_num : (0 : ℝ) ≤ 1.2)
    linarith

lemma hlg_from_mono {x y : ℝ} (hx : 0 ≤ x) (hxy : x ≤ y) :
    hlg_from_linear x ≤ hlg_from_linear y := by
  unfold hlg_from_linear
  have hl0 : 0 ≤ x ^ (1 / 1.2 : ℝ) := Real.rpow_nonneg hx _
  have hlmono : x ^ (1 / 1.2 : ℝ) ≤ y ^ (1 / 1.2 : ℝ) :=
    Real.rpow_le_rpow hx hxy (by norm_num)
  have hx0le : (0.5 - kHlgC) / kHlgA ≤ Real.log (1 - kHlgB) :=
    (Real.le_log_iff_exp_le (by norm_num [kHlgB])).mpr hlg_exp_x0_lt.le
  by_cases h1 : x ^ (1 / 1.2 : ℝ) ≤ 1 / 12 <;> by_cases h2 : y ^ (1 / 1.2 : ℝ) ≤ 1 / 12
  · rw [if_pos h1, if_pos h2]
    exact Real.sqrt_le_sqrt (by linarith)
  · rw [if_pos h1, if_neg h2]
    push_neg at h2
    have hs : Real.sqrt (3 * x ^ (1 / 1.2 : ℝ)) ≤ 1 / 2 := by
      rw [Real.sqrt_le_left (by norm_num)]
      · linarith
    have hlog : Real.log (1 - kHlgB) ≤ Real.log (12 * y ^ (1 / 1.2 : ℝ) - kHlgB) :=
      Real.log_le_log (by norm_num [kHlgB]) (by linarith)
    calc Real.sqrt (3 * x ^ (1 / 1.2 : ℝ)) ≤ 1 / 2 := hs
      _ = kHlgA * ((0.5 - kHlgC) / kHlgA) + kHlgC := by norm_num [kHlgA, kHlgC]
      _ ≤ kHlgA * Real.log (1 - kHlgB) + kHlgC := by
          have := mul_le_mul_of_nonneg_left hx0le (by norm_num [kHlgA] : (0 : ℝ) ≤ kHlgA)
          linarith
      _ ≤ kHlgA * Real.log (12 * y ^ (1 / 1.2 : ℝ) - kHlgB) + kHlgC := by
          have := mul_le_mul_of_nonneg_left hlog (by norm_num [kHlgA] : (0 : ℝ) ≤ kHlgA)
          linarith
  · exact absurd (hlmono.trans h2) h1
  · rw [if_neg h1, if_neg h2]
    push_neg at h1
    have hlog : Real.log (12 * x ^ (1 / 1.2 : ℝ) - kHlgB) ≤
        Real.log (12 * y ^ (1 / 1.2 : ℝ) - kHlgB) := by
      apply Real.log_le_log _ (by linarith)
      norm_num [kHlgB]
      linarith
    have := mul_le_mul_of_nonneg_left hlog (by norm_num [kHlgA] : (0 : ℝ) ≤ kHlgA)
    linarith

lemma hlg_round_to_from {y : ℝ} (hy : 0 ≤ y) :
    hlg_to_linear (hlg_from_linear y) = y := by
  unfold hlg_from_linear
  have hl0 : 0 ≤ y ^ (1 / 1.2 : ℝ) := Real.rpow_nonneg hy _
  have hl_back : (y ^ (1 / 1.2 : ℝ)) ^ (1.2 : ℝ) = y := by
    rw [← Real.rpow_mul hy, show ((1 / 1.2 : ℝ) * 1.2) = 1 by norm_num, Real.rpow_one]
  by_cases h1 : y ^ (1 / 1.2 : ℝ) ≤ 1 / 12
  · rw [if_pos h1]
    have hout : Real.sqrt (3 * y ^ (1 / 1.2 : ℝ)) ≤ 0.5 := by
      rw [Real.sqrt_le_left (by norm_num)]
      · linarith
    unfold hlg_to_linear
    rw [if_pos hout, Real.mul_self_sqrt (by linarith),
      show (3 * y ^ (1 / 1.2 : ℝ) / 3 : ℝ) = y ^ (1 / 1.2 : ℝ) by ring, hl_back]
  · rw [if_neg h1]
    push_neg at h1
    have hpos : (0 : ℝ) < 12 * y ^ (1 / 1.2 : ℝ) - kHlgB := by
      norm_num [kHlgB]
      linarith
    have hx0le : (0.5 - kHlgC) / kHlgA < Real.log (12 * y ^ (1 / 1.2 : ℝ) - kHlgB) := by
      apply lt_of_le_of_lt ((Real.le_log_iff_exp_le (by norm_num [kHlgB])).mpr
        hlg_exp_x0_lt.le)
      exact Real.log_lt_log (by norm_num [kHlgB]) (by norm_num [kHlgB]; linarith)
    have hgt : (0.5 : ℝ) <
        kHlgA * Real.log (12 * y ^ (1 / 1.2 : ℝ) - kHlgB) + kHlgC := by
      have := mul_lt_mul_of_pos_left hx0le (by norm_num [kHlgA] : (0 : ℝ) < kHlgA)
      have harith : kHlgA * ((0.5 - kHlgC) / kHlgA) = 0.5 - kHlgC := by
        norm_num [kHlgA, kHlgC]
      linarith
    unfold hlg_to_linear
    rw [if_neg (not_le.mpr hgt),
      show ((kHlgA * Real.log (12 * y ^ (1 / 1.2 : ℝ) - kHlgB) + kHlgC - kHlgC) / kHlgA : ℝ) =
        Real.log (12 * y ^ (1 / 1.2 : ℝ) - kHlgB) by
          rw [add_sub_cancel_right]
          exact mul_div_cancel_left₀ _ (by norm_num [kHlgA]),
      Real.exp_log hpos,
      show ((12 * y ^ (1 / 1.2 : ℝ) - kHlgB + kHlgB) / 12 : ℝ) = y ^ (1 / 1.2 : ℝ) by ring,
      hl_back]

lemma hlg_round_from_to {x : ℝ} (hx : 0 ≤ x) (hx1 : x ≤ 1) :
    |hlg_from_linear (hlg_to_linear x) - x| ≤ 0.001 := by
  unfold hlg_to_linear
  by_cases h1 : x ≤ 0.5
  · rw [if_pos h1]
    have hin0 : (0 : ℝ) ≤ x * x / 3 := by positivity
    have hinner : ((x * x / 3 : ℝ) ^ (1.2 : ℝ)) ^ (1 / 1.2 : ℝ) = x * x / 3 := by
      rw [← Real.rpow_mul hin0, show ((1.2 : ℝ) * (1 / 1.2)) = 1 by norm_num, Real.rpow_one]
    unfold hlg_from_linear
    rw [hinner, if_pos (by nlinarith : (x * x / 3 : ℝ) ≤ 1 / 12),
      show (3 * (x * x / 3) : ℝ) = x * x by ring, Real.sqrt_mul_self hx, sub_self, abs_zero]
    norm_num
  · rw [if_neg h1]
    push_neg at h1
    have hin0 : (0 : ℝ) ≤ (Real.exp ((x - kHlgC) / kHlgA) + kHlgB) / 12 := by
      have := (Real.exp_pos ((x - kHlgC) / kHlgA)).le
      norm_num [kHlgB]
      linarith
    have hinner : (((Real.exp ((x - kHlgC) / kHlgA) + kHlgB) / 12 : ℝ) ^ (1.2 : ℝ)) ^
        (1 / 1.2 : ℝ) = (Real.exp ((x - kHlgC) / kHlgA) + kHlgB) / 12 := by
      rw [← Real.rpow_mul hin0, show ((1.2 : ℝ) * (1 / 1.2)) = 1 by norm_num, Real.rpow_one]
    unfold hlg_from_linear
    rw [hinner]
    by_cases h2 : ((Real.exp ((x - kHlgC) / kHlgA) + kHlgB) / 12 : ℝ) ≤ 1 / 12
    · -- the hair-thin region (0.5, ≈0.5001]: the sqrt branch reproduces x up to 2·10⁻⁴
      rw [if_pos h2]
      have hexp_lb : (0.715330 : ℝ) ≤ Real.exp ((x - kHlgC) / kHlgA) :=
        le_trans hlg_exp_x0_ge (Real.exp_le_exp.mpr (hlg_exp_arg_mono h1.le))
      have h3in : (0.715330 + kHlgB) / 4 ≤ 3 * ((Real.exp ((x - kHlgC) / kHlgA) + kHlgB) / 12) := by
        rw [div_le_iff (by norm_num : (0 : ℝ) < 4)]
        linarith
      have hsq_lb : (0.4999 : ℝ) ≤
          Real.sqrt (3 * ((Real.exp ((x - kHlgC) / kHlgA) + kHlgB) / 12)) := by
        rw [Real.le_sqrt (by norm_num) (by linarith [hin0])]
        calc ((0.4999 : ℝ)) ^ 2 ≤ (0.715330 + kHlgB) / 4 := by norm_num [kHlgB]
          _ ≤ _ := h3in
      have hsq_ub : Real.sqrt (3 * ((Real.exp ((x - kHlgC) / kHlgA) + kHlgB) / 12)) ≤ 0.5 := by
        rw [Real.sqrt_le_left (by norm_num)]
        · linarith
      have hexp_ub : Real.exp ((x - kHlgC) / kHlgA) ≤ 1 - kHlgB := by
        norm_num [kHlgB] at h2 ⊢
        linarith
      have hlog_ub : Real.log (1 - kHlgB) ≤ (0.5 - kHlgC) / kHlgA + 10000 / 17883277 := by
        rw [Real.log_le_iff_le_exp (by norm_num [kHlgB]), Real.exp_add]
        have he1 : (0.715330 : ℝ) ≤ Real.exp ((0.5 - kHlgC) / kHlgA) := hlg_exp_x0_ge
        have he2 : (1 + 10000 / 17883277 : ℝ) ≤ Real.exp (10000 / 17883277) := by
          have := Real.add_one_le_exp (10000 / 17883277 : ℝ)
          linarith
        calc (1 - kHlgB : ℝ) ≤ 0.715330 * (1 + 10000 / 17883277) := by norm_num [kHlgB]
          _ ≤ Real.exp ((0.5 - kHlgC) / kHlgA) * Real.exp (10000 / 17883277) := by
              apply mul_le_mul he1 he2 (by norm_num) (Real.exp_pos _).le
      have hxub : x ≤ 0.5001 := by
        have harg : (x - kHlgC) / kHlgA ≤ Real.log (1 - kHlgB) :=
          (Real.le_log_iff_exp_le (by norm_num [kHlgB])).mpr hexp_ub
        have h4 : (x - kHlgC) / kHlgA ≤ (0.5 - kHlgC) / kHlgA + 10000 / 17883277 :=
          harg.trans hlog_ub
        have h5 := (div_le_iff (by norm_num [kHlgA] : (0 : ℝ) < kHlgA)).mp h4
        have h6 : ((0.5 - kHlgC) / kHlgA + 10000 / 17883277 : ℝ) * kHlgA = 0.5001 - kHlgC := by
          norm_num [kHlgA, kHlgC]
        linarith
      rw [abs_le]
      constructor <;> linarith
    · -- beyond it the round trip is exact
      rw [if_neg h2]
      have harg : (12 * ((Real.exp ((x - kHlgC) / kHlgA) + kHlgB) / 12) - kHlgB : ℝ) =
          Real.exp ((x - kHlgC) / kHlgA) := by ring
      rw [harg, Real.log_exp,
        show (kHlgA * ((x - kHlgC) / kHlgA) + kHlgC : ℝ) = x by
          rw [mul_comm, div_mul_cancel₀ _ (by norm_num [kHlgA] : (kHlgA : ℝ) ≠ 0)]
          ring,
        sub_self, abs_zero]
      norm_num

/-! ### C3: the emitted amplitude is the clamp of the rounded value to [0,255] -/

lemma start_nonneg (p : photon_noise_args_t) (i : ℕ) : 0 ≤ linear_range_start p i := by
  unfold linear_range_start
  rw [maxf_eq_max]
  exact le_max_left 0 _

/-- Nondegeneracy of the slope interval, allowing the sampled linear value to
exceed 1 slightly (as the exact-real HLG curve does at full scale). -/
lemma range_start_lt_end' {p : photon_noise_args_t} {i : ℕ}
    (hl0 : 0 ≤ linear_at p i) (hl1 : linear_at p i ≤ 1.01)
    (hln : 0 < linear_noise p i) (hln5 : 0.005 * linear_at p i ≤ linear_noise p i) :
    linear_range_start p i < linear_range_end p i := by
  unfold linear_range_start linear_range_end
  rw [maxf_eq_max, minf_eq_min]
  apply max_lt
  · exact lt_min (by norm_num) (by linarith)
  · exact lt_min (by nlinarith) (by linarith)

lemma encoded_noise_nonneg_of_mono (p : photon_noise_args_t) (i : ℕ)
    (hln : 0 ≤ linear_noise p i)
    (hse : linear_range_start p i ≤ linear_range_end p i)
    (hmono : ∀ u v : ℝ, 0 ≤ u → u ≤ v →
      p.transfer_function.from_linear u ≤ p.transfer_function.from_linear v) :
    0 ≤ encoded_noise p i := by
  unfold encoded_noise tf_slope
  apply mul_nonneg hln
  exact div_nonneg (sub_nonneg.mpr (hmono _ _ (start_nonneg p i) hse)) (sub_nonneg.mpr hse)

lemma slope_term_lb {n D d : ℝ} (hn : 0 < n) (hD : 2 * n ≤ D) (hd : -(0.0000001) ≤ d) :
    -(0.0000001 / 2) ≤ n * (d / D) := by
  have hD0 : 0 < D := by linarith
  rw [← mul_div_assoc, le_div_iff hD0]
  nlinarith [mul_le_mul_of_nonneg_left hd hn.le,
    mul_le_mul_of_nonneg_left hD (by norm_num : (0 : ℝ) ≤ 0.0000001 / 2)]

/-- For sRGB the finite-difference slope can be very slightly negative (from the
inverse map's jump at its branch boundary), but the encoded noise stays within
`5·10⁻⁸` of nonnegative. -/
lemma encoded_noise_srgb_lb (p : photon_noise_args_t) (i : ℕ)
    (hfrom : p.transfer_function.from_linear = srgb_from_linear)
    (hl0 : 0 ≤ linear_at p i) (hl1 : linear_at p i ≤ 1) (hln : 0 < linear_noise p i) :
    -(0.0000001 / 2) ≤ encoded_noise p i := by
  unfold encoded_noise tf_slope linear_range_start linear_range_end
  rw [maxf_eq_max, minf_eq_min, hfrom]
  set l := linear_at p i with hldef
  set n := linear_noise p i with hndef
  by_cases h1 : l - 2 * n ≤ 0 <;> by_cases h2 : 1 ≤ l + 2 * n
  · rw [max_eq_left h1, min_eq_left h2, srgb_from_one, srgb_from_zero]
    have : ((1 : ℝ) - 0) / (1 - 0) = 1 := by norm_num
    rw [this, mul_one]
    linarith
  · push_neg at h2
    rw [max_eq_left h1, min_eq_right h2.le, srgb_from_zero, sub_zero, sub_zero]
    have hd : -(0.0000001) ≤ srgb_from_linear (l + 2 * n) := by
      have h := srgb_from_eps (show (0 : ℝ) ≤ l + 2 * n by linarith)
      rw [srgb_from_zero] at h
      linarith
    exact slope_term_lb hln (by linarith) hd
  · rw [max_eq_right (le_of_not_le h1), min_eq_left h2]
    have hd : -(0.0000001) ≤ srgb_from_linear 1 - srgb_from_linear (l - 2 * n) := by
      have h := srgb_from_eps (by linarith : l - 2 * n ≤ 1)
      linarith
    exact slope_term_lb hln (by linarith) hd
  · rw [max_eq_right (le_of_not_le h1), min_eq_right (le_of_not_le h2)]
    have hd : -(0.0000001) ≤ srgb_from_linear (l + 2 * n) - srgb_from_linear (l - 2 * n) := by
      have h := srgb_from_eps (by linarith : l - 2 * n ≤ l + 2 * n)
      linarith
    exact slope_term_lb hln (by linarith) hd

/-- C3: for every invocation with positive width, height and ISO and a catalog
transfer function, the emitted amplitude is `clamp(round(255·7.88·encoded_noise), 0, 255)`;
in particular it lies in `[0, 255]` (the source only clamps above; the rounded
value is never below 0, so the lower clamp is implied). -/
theorem C3_amplitude_is_clamp (p : photon_noise_args_t) (fg : aom_film_grain_t)
    (hw : 0 < p.width) (hh : 0 < p.height) (hiso : 0 < p.iso_setting)
    (htf : p.transfer_function ∈ catalog) (i : ℕ) (hi : i < 14) :
    ((generate_photon_noise p fg).scaling_points_y i).2 =
      max 0 (min 255 (roundZ (255 * 7.88 * encoded_noise p i))) ∧
    0 ≤ ((generate_photon_noise p fg).scaling_points_y i).2 ∧
    ((generate_photon_noise p fg).scaling_points_y i).2 ≤ 255 := by
  have hemit : ((generate_photon_noise p fg).scaling_points_y i).2 =
      scaling_point_noise p i := by
    simp [generate_photon_noise, hi]
  have hmax := max_electrons_pos hw hh hiso htf
  have hsx0 := sample_x_nonneg i
  have hsx1 := sample_x_le_one hi
  have hen : -(0.0000001 / 2) ≤ encoded_noise p i := by
    simp only [catalog, List.mem_cons, List.mem_singleton, List.not_mem_nil, or_false] at htf
    rcases htf with h | h | h | h | h
    · have hl : 0 ≤ linear_at p i ∧ linear_at p i ≤ 1 := by
        unfold linear_at
        rw [h]
        exact gamma22_to_maps01 hsx0 hsx1
      have he : 0 ≤ electrons_per_pixel p i := mul_nonneg hmax.le hl.1
      have hln := linear_noise_pos hmax he
      have hnn := encoded_noise_nonneg_of_mono p i hln.le
        (range_start_lt_end hl.1 hl.2 hln).le
        (fun u v hu huv => by rw [h]; exact gamma22_from_mono hu huv)
      linarith
    · have hl : 0 ≤ linear_at p i ∧ linear_at p i ≤ 1 := by
        unfold linear_at
        rw [h]
        exact gamma28_to_maps01 hsx0 hsx1
      have he : 0 ≤ electrons_per_pixel p i := mul_nonneg hmax.le hl.1
      have hln := linear_noise_pos hmax he
      have hnn := encoded_noise_nonneg_of_mono p i hln.le
        (range_start_lt_end hl.1 hl.2 hln).le
        (fun u v hu huv => by rw [h]; exact gamma28_from_mono hu huv)
      linarith
    · have hl : 0 ≤ linear_at p i ∧ linear_at p i ≤ 1 := by
        unfold linear_at
        rw [h]
        exact srgb_to_maps01 _ hsx0 hsx1
      have he : 0 ≤ electrons_per_pixel p i := mul_nonneg hmax.le hl.1
      have hln := linear_noise_pos hmax he
      exact encoded_noise_srgb_lb p i (by rw [h]; rfl) hl.1 hl.2 hln
    · have hl : 0 ≤ linear_at p i ∧ linear_at p i ≤ 1 := by
        unfold linear_at
        rw [h]
        exact pq_to_maps01 hsx0 hsx1
      have he : 0 ≤ electrons_per_pixel p i := mul_nonneg hmax.le hl.1
      have hln := linear_noise_pos hmax he
      have hnn := encoded_noise_nonneg_of_mono p i hln.le
        (range_start_lt_end hl.1 hl.2 hln).le
        (fun u v hu huv => by rw [h]; exact pq_from_mono hu huv)
      linarith
    · have hl0 : 0 ≤ linear_at p i := by
        unfold linear_at
        rw [h]
        exact hlg_to_nonneg _
      have hl1 : linear_at p i ≤ 1.01 := by
        unfold linear_at
        rw [h]
        exact hlg_to_le101 hsx0 hsx1
      have he : 0 ≤ electrons_per_pixel p i := mul_nonneg hmax.le hl0
      have hln := linear_noise_pos hmax he
      have hln5 := linear_noise_ge hmax hl0
      have hnn := encoded_noise_nonneg_of_mono p i hln.le
        (range_start_lt_end' hl0 hl1 hln hln5).le
        (fun u v hu huv => by rw [h]; exact hlg_from_mono hu huv)
      linarith
  have hv : -(1 / 2 : ℝ) < 255 * 7.88 * encoded_noise p i := by linarith
  have hr0 : 0 ≤ roundZ (255 * 7.88 * encoded_noise p i) := roundZ_nonneg_of_half hv
  rw [hemit, scaling_point_noise_eq]
  exact ⟨(max_eq_right (le_min (by norm_num) hr0)).symm,
    le_min (by norm_num) hr0, min_le_left _ _⟩

theorem C3_amplitude_is_clamp_witness :
    0 ≤ ((generate_photon_noise exampleArgs zeroed_film_grain).scaling_points_y 0).2 ∧
    ((generate_photon_noise exampleArgs zeroed_film_grain).scaling_points_y 0).2 ≤ 255 := by
  have h := C3_amplitude_is_clamp exampleArgs zeroed_film_grain (by norm_num [exampleArgs])
    (by norm_num [exampleArgs]) (by norm_num [exampleArgs]) (by simp [exampleArgs, catalog])
    0 (by norm_num)
  exact ⟨h.2.1, h.2.2⟩

/-! ### C4: monotonicity and approximate-inverse properties of the catalog -/

/-- C4 counterexample: in exact real arithmetic the sRGB inverse map is NOT
monotonically non-decreasing on `[0,1]`: crossing the `0.0031308` branch
boundary it drops by about `2.9·10⁻⁸` (the linear branch tops out at
`12.92·0.0031308 = 0.040449936` while the power branch resumes near
`0.04044991`).  (The HLG forward map likewise dips by about `10⁻¹⁰` at `0.5`.) -/
theorem C4_monotonicity_counterexample :
    kSRgbTransferFunction ∈ catalog ∧
    (0 : ℝ) ≤ 0.0031308 ∧ (0.0031308 : ℝ) ≤ 0.00313080001 ∧ (0.00313080001 : ℝ) ≤ 1 ∧
    kSRgbTransferFunction.from_linear 0.00313080001 <
      kSRgbTransferFunction.from_linear 0.0031308 :=
  ⟨by simp [catalog], by norm_num, by norm_num, by norm_num, srgb_from_jump⟩

/-- C4 (amended): on `[0,1]`, eight of the ten catalog maps are monotonically
non-decreasing exactly; the two exceptions — `srgb_from_linear` (jump at its
`0.0031308` branch boundary) and `hlg_to_linear` (jump at `0.5`) — are monotone
up to an additive slack of `10⁻⁶`; and for every catalog curve both round trips
`to_linear ∘ from_linear` and `from_linear ∘ to_linear` reproduce the identity
on `[0,1]` within `10⁻³` (most of them exactly). -/
theorem C4_monotone_inverse_pairs :
    (∀ x y : ℝ, 0 ≤ x → x ≤ y → y ≤ 1 →
      gamma22_to_linear x ≤ gamma22_to_linear y ∧
      gamma22_from_linear x ≤ gamma22_from_linear y ∧
      gamma28_to_linear x ≤ gamma28_to_linear y ∧
      gamma28_from_linear x ≤ gamma28_from_linear y ∧
      srgb_to_linear x ≤ srgb_to_linear y ∧
      pq_to_linear x ≤ pq_to_linear y ∧
      pq_from_linear x ≤ pq_from_linear y ∧
      hlg_from_linear x ≤ hlg_from_linear y) ∧
    (∀ x y : ℝ, 0 ≤ x → x ≤ y → y ≤ 1 →
      srgb_from_linear x ≤ srgb_from_linear y + 0.000001 ∧
      hlg_to_linear x ≤ hlg_to_linear y + 0.000001) ∧
    (∀ tf ∈ catalog, ∀ x : ℝ, 0 ≤ x → x ≤ 1 →
      |tf.to_linear (tf.from_linear x) - x| ≤ 0.001 ∧
      |tf.from_linear (tf.to_linear x) - x| ≤ 0.001) := by
  refine ⟨?_, ?_, ?_⟩
  · intro x y hx hxy hy1
    exact ⟨gamma22_to_mono hx hxy, gamma22_from_mono hx hxy, gamma28_to_mono hx hxy,
      gamma28_from_mono hx hxy, srgb_to_mono hx hxy, pq_to_mono hx hxy hy1,
      pq_from_mono hx hxy, hlg_from_mono hx hxy⟩
  · intro x y hx hxy hy1
    constructor
    · have := srgb_from_eps hxy
      linarith
    · exact hlg_to_eps hx hxy hy1
  · intro tf htf x hx hx1
    simp only [catalog, List.mem_cons, List.mem_singleton, List.not_mem_nil, or_false] at htf
    rcases htf with h | h | h | h | h <;> subst h
    · constructor
      · show |gamma22_to_linear (gamma22_from_linear x) - x| ≤ 0.001
        rw [gamma22_round_to_from hx, sub_self, abs_zero]
        norm_num
      · show |gamma22_from_linear (gamma22_to_linear x) - x| ≤ 0.001
        rw [gamma22_round_from_to hx, sub_self, abs_zero]
        norm_num
    · constructor
      · show |gamma28_to_linear (gamma28_from_linear x) - x| ≤ 0.001
        rw [gamma28_round_to_from hx, sub_self, abs_zero]
        norm_num
      · show |gamma28_from_linear (gamma28_to_linear x) - x| ≤ 0.001
        rw [gamma28_round_from_to hx, sub_self, abs_zero]
        norm_num
    · exact ⟨srgb_round_to_from hx hx1, srgb_round_from_to hx hx1⟩
    · constructor
      · show |pq_to_linear (pq_from_linear x) - x| ≤ 0.001
        rw [pq_round_to_from hx, sub_self, abs_zero]
        norm_num
      · exact pq_round_from_to hx hx1
    · constructor
      · show |hlg_to_linear (hlg_from_linear x) - x| ≤ 0.001
        rw [hlg_round_to_from hx, sub_self, abs_zero]
        norm_num
      · exact hlg_round_from_to hx hx1

theorem C4_monotone_inverse_pairs_witness :
    gamma22_to_linear 0 ≤ gamma22_to_linear 1 :=
  (C4_monotone_inverse_pairs.1 0 1 (by norm_num) (by norm_num) (by norm_num)).1

end

end PhotonNoise
